import Mathlib

/-!
# wukong engine: search merge, shard assignment, suggestion, Init and flush

A shallow embedding of `engine/engine.go` and `engine/auto_completed.go`.
Go `int` is a 64-bit two's-complement integer, modelled as `Int` with an
explicit wrap at every addition that can leave the range.  Go strings are byte
sequences.  A `float32` score is NaN, an infinity or a rational.  The shard workers, the segmenter and the key-value stores are the
environment: what they deliver is an argument of the operation that reads it.
-/

namespace Wukong

/-- A Go string: a sequence of bytes. -/
abbrev GoString := List UInt8

/-- Ways an operation can end without returning. `fatal` is `log.Fatal` (the process
exits), `panicked` a run-time panic (slice bounds, index out of range, division by
zero, negative size), `blocked` a channel receive that never completes. -/
inductive Failure where
  | fatal
  | panicked
  | blocked
  deriving DecidableEq, Repr

/-- Reduction of a mathematical integer to the 64-bit `int` range, as done by Go arithmetic. -/
def wrapInt (x : Int) : Int := (x + 2 ^ 63) % 2 ^ 64 - 2 ^ 63

/-- Go `+` on `int`. -/
def addInt (a b : Int) : Int := wrapInt (a + b)

/-- Values representable by a Go `int`. -/
def IsInt (x : Int) : Prop := -(2 ^ 63) ≤ x ∧ x < 2 ^ 63

instance (x : Int) : Decidable (IsInt x) := by unfold IsInt; infer_instance

/-- Modelled from the spec: `utils.MinInt`, the helper the engine uses to "clamp to slice
length"; the smaller of two ints. -/
def MinInt (a b : Int) : Int := if a < b then a else b

/-- A score component, a `float32`: NaN, an infinity, or a finite value, which compares
as the rational it denotes. -/
inductive Score where
  | nan
  | negInf
  | num (q : ℚ)
  | posInf
  deriving DecidableEq

/-- The comparison `a < b` of two `float32` values; every comparison with NaN is false. -/
def Score.lt : Score → Score → Bool
  | .negInf, .num _ => true
  | .negInf, .posInf => true
  | .num _, .posInf => true
  | .num a, .num b => decide (a < b)
  | _, _ => false

instance : LT Score := ⟨fun a b => Score.lt a b = true⟩

instance (a b : Score) : Decidable (a < b) :=
  inferInstanceAs (Decidable (Score.lt a b = true))

instance (n : Nat) : OfNat Score n := ⟨.num n⟩

/-- A score vector without NaN. -/
def NoNaN (scores : List Score) : Prop := ∀ s ∈ scores, s ≠ Score.nan

instance (scores : List Score) : Decidable (NoNaN scores) := by
  unfold NoNaN; infer_instance

/-- Modelled from the spec: `types.ScoredDocument`, the record
`ScoredDocument{docId, scores, snippet_positions}` a ranker returns. -/
structure ScoredDocument where
  DocId : Nat
  Scores : List Score
  TokenSnippetLocations : List Int
  deriving DecidableEq

/-- Lexicographic "greater than" on score vectors, first component primary; of two
vectors one of which extends the other, the longer is the greater. -/
def moreScores : List Score → List Score → Bool
  | [], _ => false
  | _ :: _, [] => true
  | a :: as, b :: bs =>
    if b < a then true else if a < b then false else moreScores as bs

/-- Modelled from the spec: `types.ScoredDocuments.Less`, the comparator `sort.Sort`
is given. The spec orders by the score vector lexicographically descending and
breaks ties by docId ascending. -/
def Less (a b : ScoredDocument) : Bool :=
  moreScores a.Scores b.Scores ||
    (!moreScores b.Scores a.Scores && decide (a.DocId < b.DocId))

/-- The comparator of `sort.Reverse(data)`: `Less(i, j)` of the wrapper is `Less(j, i)`
of the wrapped value. -/
def reverseLess (less : ScoredDocument → ScoredDocument → Bool) :
    ScoredDocument → ScoredDocument → Bool :=
  fun a b => less b a

/-- The orderings `sort.Sort` is specified for: asymmetric, with a transitive
"not before" relation (a strict weak order). -/
def StrictWeak (less : ScoredDocument → ScoredDocument → Bool) : Prop :=
  (∀ a b, less a b = true → less b a = false) ∧
  (∀ a b c, less b a = false → less c b = false → less c a = false)

/-- What `sort.IsSorted` checks, for all pairs: no element is `less` than an earlier one. -/
def IsSortedBy (less : ScoredDocument → ScoredDocument → Bool) (l : List ScoredDocument) : Prop :=
  l.Pairwise (fun a b => less b a = false)

/-- The standard library's `sort.Sort`, by its contract: it rearranges the slice (only
`Swap` is used) and leaves it sorted for `Less`; it is not stable, so nothing else is
known about the order of elements neither of which is less than the other. -/
structure SortImpl where
  sort : (ScoredDocument → ScoredDocument → Bool) → List ScoredDocument → List ScoredDocument
  perm : ∀ less l, (sort less l).Perm l
  sorted : ∀ less, StrictWeak less → ∀ l, IsSortedBy less (sort less l)

/-- A comparator that is a strict weak order on the elements of a slice; `sort.Sort`
calls `Less` on these elements only. -/
def StrictWeakOn (less : ScoredDocument → ScoredDocument → Bool) (l : List ScoredDocument) :
    Prop :=
  (∀ a ∈ l, ∀ b ∈ l, less a b = true → less b a = false) ∧
  (∀ a ∈ l, ∀ b ∈ l, ∀ c ∈ l, less b a = false → less c b = false → less c a = false)

/-- The contract of `sort.Sort` for one slice: it leaves sorted every slice on whose
elements `Less` is a strict weak order. On other slices (a NaN score among the
candidates) the result is a rearrangement, not known to be sorted. -/
def SortImpl.Local (S : SortImpl) : Prop :=
  ∀ less l, StrictWeakOn less l → IsSortedBy less (S.sort less l)

/-- The inner loop of Go's `insertionSort`,
`for j := i; j > a && data.Less(j, j-1); j-- { data.Swap(j, j-1) }`, on the elements
before position `i` listed from the last to the first: `x` moves down past every element
it is `Less` than and stops at the first it is not. -/
def goInsert (less : ScoredDocument → ScoredDocument → Bool) (x : ScoredDocument) :
    List ScoredDocument → List ScoredDocument
  | [] => [x]
  | y :: ys => if less x y then y :: goInsert less x ys else x :: y :: ys

/-- Go's `insertionSort`, which `sort.Sort` runs on a slice of fewer than 12 elements:
each element in turn is moved down into the part before it. -/
def goInsertionSort (less : ScoredDocument → ScoredDocument → Bool)
    (l : List ScoredDocument) : List ScoredDocument :=
  (l.foldl (fun before x => goInsert less x before) []).reverse

/-- Go's `insertionSort` as an implementation of the contract of `sort.Sort`. -/
def goSorter : SortImpl where
  sort := goInsertionSort
  perm less l := by
    have hins : ∀ (x : ScoredDocument) (r : List ScoredDocument),
        (goInsert less x r).Perm (x :: r) := by
      intro x r
      induction r with
      | nil => exact List.Perm.refl _
      | cons y ys ih =>
        simp only [goInsert]
        split_ifs
        · exact (List.Perm.cons y ih).trans (List.Perm.swap x y ys)
        · exact List.Perm.refl _
    have hfold : ∀ (l acc : List ScoredDocument),
        (l.foldl (fun before x => goInsert less x before) acc).Perm (l ++ acc) := by
      intro l
      induction l with
      | nil => intro acc; exact List.Perm.refl _
      | cons x xs ih =>
        intro acc
        simp only [List.foldl_cons, List.cons_append]
        exact (ih _).trans ((List.Perm.append_left xs (hins x acc)).trans
          List.perm_middle)
    exact (List.reverse_perm _).trans (by simpa using hfold l [])
  sorted less h l := by
    have hperm : ∀ (x : ScoredDocument) (r : List ScoredDocument),
        (goInsert less x r).Perm (x :: r) := by
      intro x r
      induction r with
      | nil => exact List.Perm.refl _
      | cons y ys ih =>
        simp only [goInsert]
        split_ifs
        · exact (List.Perm.cons y ih).trans (List.Perm.swap x y ys)
        · exact List.Perm.refl _
    have hins : ∀ (x : ScoredDocument) (r : List ScoredDocument),
        r.Pairwise (fun a b => less a b = false) →
        (goInsert less x r).Pairwise (fun a b => less a b = false) := by
      intro x r
      induction r with
      | nil => intro _; simp [goInsert]
      | cons y ys ih =>
        intro hr
        have hy : ∀ c ∈ ys, less y c = false := fun c hc => List.rel_of_pairwise_cons hr hc
        simp only [goInsert]
        split_ifs with hxy
        · refine List.Pairwise.cons ?_ (ih hr.of_cons)
          intro c hc
          rcases List.mem_cons.mp ((hperm x ys).subset hc) with rfl | hc'
          · exact h.1 _ _ hxy
          · exact hy c hc'
        · refine List.Pairwise.cons ?_ hr
          intro c hc
          rcases List.mem_cons.mp hc with rfl | hc
          · simpa using hxy
          · exact h.2 c y x (hy c hc) (by simpa using hxy)
    have hfold : ∀ (l acc : List ScoredDocument),
        acc.Pairwise (fun a b => less a b = false) →
        (l.foldl (fun before x => goInsert less x before) acc).Pairwise
          (fun a b => less a b = false) := by
      intro l
      induction l with
      | nil => intro acc hacc; exact hacc
      | cons x xs ih => intro acc hacc; exact ih _ (hins x acc hacc)
    unfold IsSortedBy goInsertionSort
    rw [List.pairwise_reverse]
    exact hfold l [] List.Pairwise.nil

/-- An insertion sort, one implementation of the contract of `sort.Sort`. -/
def insertionSorter : SortImpl where
  sort less l := l.insertionSort (fun a b => less b a = false)
  perm less l := List.perm_insertionSort _ l
  sorted less h l := by
    have : IsTotal ScoredDocument (fun a b => less b a = false) :=
      ⟨fun a b => by
        cases hab : less b a
        · exact Or.inl rfl
        · exact Or.inr (h.1 b a hab)⟩
    have : IsTrans ScoredDocument (fun a b => less b a = false) :=
      ⟨fun a b c hab hbc => h.2 a b c hab hbc⟩
    exact List.sorted_insertionSort (fun a b => less b a = false) l

/-- A scoring criterion; the engine only passes it on to the rankers. -/
abbrev ScoringCriteria := Nat

/-- Modelled from the spec: `types.RankOptions`,
`{ScoringCriteria, OutputOffset, MaxOutputs, ReverseOrder}`; the criterion is an
interface value and may be nil. -/
structure RankOptions where
  ScoringCriteria : Option ScoringCriteria
  OutputOffset : Int
  MaxOutputs : Int
  ReverseOrder : Bool
  deriving DecidableEq

/-- Modelled from the spec: `types.EngineInitOptions`, restricted to the fields the
engine reads. `DefaultRankOptions` is a pointer in the source; the spec lists it as a
field that is always present. -/
structure EngineInitOptions where
  SegmenterDictionaries : GoString
  StopTokenFile : GoString
  NumShards : Int
  NumSegmenterThreads : Int
  IndexerBufferLength : Int
  RankerBufferLength : Int
  DefaultRankOptions : RankOptions
  UsePersistentStorage : Bool
  PersistentStorageFolder : GoString
  deriving DecidableEq

/-- Modelled from the spec: `types.SearchRequest`,
`{Text?, Tokens?, Labels?, DocIds?, CountDocsOnly, Orderless, Timeout_ms, RankOptions?}`. -/
structure SearchRequest where
  Text : GoString
  Tokens : List GoString
  Labels : List GoString
  DocIds : List Nat
  CountDocsOnly : Bool
  Orderless : Bool
  Timeout : Int
  RankOptions : Option RankOptions
  deriving DecidableEq

/-- Modelled from the spec: `types.SearchResponse`, `{Tokens[], Docs[], NumDocs, Timeout}`. -/
structure SearchResponse where
  Tokens : List GoString
  Docs : List ScoredDocument
  NumDocs : Int
  Timeout : Bool
  deriving DecidableEq

/-- What a shard's ranker posts on the return channel (fields `docs` and `numDocs`, as
`Search` reads them). -/
structure rankerReturnRequest where
  docs : List ScoredDocument
  numDocs : Int
  deriving DecidableEq

/-- The lookup request `Search` sends to every shard (the return channel is left out). -/
structure indexerLookupRequest where
  countDocsOnly : Bool
  tokens : List GoString
  labels : List GoString
  docIds : List Nat
  options : RankOptions
  orderless : Bool
  deriving DecidableEq

/-- A key-value store, as the list of its entries in `ForEach` order. -/
abbrev Storage := List (GoString × GoString)

/-- What `IndexDocument` puts on the segmenter channel (the document data is left out). -/
structure segmenterRequest where
  docId : Nat
  shard : Int
  deriving DecidableEq

/-- The engine. A channel is the capacity it was made with, `none` while it is nil; a
store slot is `none` while it is nil; an indexer or ranker is the shard number it was
initialised with, `none` while it is the zero value. The segmenter and the stop-token
set are the functions they compute once loaded. -/
structure Engine where
  numDocumentsIndexed : Nat
  numIndexingRequests : Nat
  numTokenIndexAdded : Nat
  numDocumentsStored : Nat
  initOptions : EngineInitOptions
  initialized : Bool
  indexers : List (Option Int)
  rankers : List (Option Int)
  segmenter : GoString → List GoString
  stopTokens : GoString → Bool
  dbs : List (Option Storage × Option Storage)
  segmenterChannel : Option Int
  indexerAddDocumentChannels : List (Option Int)
  indexerLookupChannels : List (Option Int)
  indexerRemoveDocChannels : List (Option Int)
  rankerAddDocChannels : List (Option Int)
  rankerRankChannels : List (Option Int)
  rankerRemoveDocChannels : List (Option Int)
  persistentStorageIndexDocumentChannels : List (Option Int)
  persistentStorageInitChannel : Option Int

/-- A send on `channels[shard]`: an index past the end of the slice panics, a send on a
nil channel never completes. (The workers drain their channels, so a send on a live
channel completes.) -/
def sendOne (channels : List (Option Int)) (shard : Nat) : Option Failure :=
  match channels.get? shard with
  | none => some .panicked
  | some none => some .blocked
  | some (some _) => none

/-- A send on `channels[shard]` for every `shard < n`, in order; the first failure, if any. -/
def sendAll (channels : List (Option Int)) (n : Nat) : Option Failure :=
  (List.range n).findSome? (sendOne channels)

/-- `Search`, lines 310-318: the rank options in effect. -/
def Search.rankOptions (engine : Engine) (request : SearchRequest) : RankOptions :=
  let rankOptions := match request.RankOptions with
    | none => engine.initOptions.DefaultRankOptions
    | some o => o
  if rankOptions.ScoringCriteria = none then
    { rankOptions with ScoringCriteria := engine.initOptions.DefaultRankOptions.ScoringCriteria }
  else rankOptions

/-- `Search`, lines 320-334: the query tokens. -/
def Search.tokens (engine : Engine) (request : SearchRequest) : List GoString :=
  if request.Text ≠ [] then
    (engine.segmenter request.Text).filter (fun token => !engine.stopTokens token)
  else request.Tokens

/-- `Search`, lines 340-349: the lookup request. -/
def Search.lookupRequest (engine : Engine) (request : SearchRequest) : indexerLookupRequest :=
  { countDocsOnly := request.CountDocsOnly
    tokens := Search.tokens engine request
    labels := request.Labels
    docIds := request.DocIds
    options := Search.rankOptions engine request
    orderless := request.Orderless }

/-- `Search`, lines 351-354: the requests put on the shards' lookup channels. -/
def Search.lookups (engine : Engine) (request : SearchRequest) : List indexerLookupRequest :=
  List.replicate engine.initOptions.NumShards.toNat (Search.lookupRequest engine request)

/-- `Search`, lines 356-389: the receive loop, one receive per shard. The head of the
list is what the next receive yields: `some r` when a shard output arrives, `none` (or
the end of the list) when none does in time. Without a timeout a receive that gets
nothing never completes; with one, the deadline case sets `isTimeout` and the loop goes
on with the next shard. -/
def Search.collect (countDocsOnly timed : Bool) :
    Nat → List (Option rankerReturnRequest) → List ScoredDocument → Int → Bool →
    Except Failure (List ScoredDocument × Int × Bool)
  | 0, _, rankOutput, numDocs, isTimeout => .ok (rankOutput, numDocs, isTimeout)
  | n + 1, some rankerOutput :: rest, rankOutput, numDocs, isTimeout =>
    Search.collect countDocsOnly timed n rest
      (if !countDocsOnly then rankOutput ++ rankerOutput.docs else rankOutput)
      (addInt numDocs rankerOutput.numDocs) isTimeout
  | n + 1, none :: rest, rankOutput, numDocs, _ =>
    if timed then Search.collect countDocsOnly timed n rest rankOutput numDocs true
    else .error .blocked
  | n + 1, [], rankOutput, numDocs, _ =>
    if timed then Search.collect countDocsOnly timed n [] rankOutput numDocs true
    else .error .blocked

/-- `Search`, lines 391-398: the global re-sort. -/
def Search.resort (S : SortImpl) (request : SearchRequest) (rankOptions : RankOptions)
    (rankOutput : List ScoredDocument) : List ScoredDocument :=
  if !request.CountDocsOnly && !request.Orderless then
    if rankOptions.ReverseOrder then S.sort (reverseLess Less) rankOutput
    else S.sort Less rankOutput
  else rankOutput

/-- The slice expression `s[low:high]`; it panics unless `0 ≤ low ≤ high ≤ len(s)`
(the bound is the capacity in Go; `Search` never asks for more than the length). -/
def slice (s : List ScoredDocument) (low high : Int) : Except Failure (List ScoredDocument) :=
  if 0 ≤ low ∧ low ≤ high ∧ high ≤ (s.length : Int) then
    .ok ((s.drop low.toNat).take (high - low).toNat)
  else .error .panicked

/-- `Search`, lines 400-421: the output. -/
def Search.output (request : SearchRequest) (rankOptions : RankOptions)
    (tokens : List GoString) (rankOutput : List ScoredDocument) (numDocs : Int)
    (isTimeout : Bool) : Except Failure SearchResponse :=
  if !request.CountDocsOnly then
    if request.Orderless then
      .ok { Tokens := tokens, Docs := rankOutput, NumDocs := numDocs, Timeout := isTimeout }
    else
      let start := MinInt rankOptions.OutputOffset rankOutput.length
      let end_ :=
        if rankOptions.MaxOutputs = 0 then (rankOutput.length : Int)
        else MinInt (addInt start rankOptions.MaxOutputs) rankOutput.length
      match slice rankOutput start end_ with
      | .error f => .error f
      | .ok docs =>
        .ok { Tokens := tokens, Docs := docs, NumDocs := numDocs, Timeout := isTimeout }
  else
    .ok { Tokens := tokens, Docs := [], NumDocs := numDocs, Timeout := isTimeout }

/-- `Engine.Search`. `recv` is what the receives on the return channel yield, in order. -/
def Search (S : SortImpl) (engine : Engine) (request : SearchRequest)
    (recv : List (Option rankerReturnRequest)) : Except Failure SearchResponse :=
  if !engine.initialized then .error .fatal
  else
    let rankOptions := Search.rankOptions engine request
    let tokens := Search.tokens engine request
    -- make(chan rankerReturnRequest, NumShards)
    if engine.initOptions.NumShards < 0 then .error .panicked
    else
      -- engine.indexerLookupChannels[shard] <- lookupRequest, for every shard
      match sendAll engine.indexerLookupChannels engine.initOptions.NumShards.toNat with
      | some f => .error f
      | none =>
      match Search.collect request.CountDocsOnly (decide (0 < request.Timeout))
          engine.initOptions.NumShards.toNat recv [] 0 false with
      | .error f => .error f
      | .ok (rankOutput, numDocs, isTimeout) =>
        Search.output request rankOptions tokens
          (Search.resort S request rankOptions rankOutput) numDocs isTimeout

/-- The candidates aggregated from the shard outputs, in arrival order. -/
def aggregate : List rankerReturnRequest → List ScoredDocument
  | [] => []
  | r :: rs => r.docs ++ aggregate rs

/-- The sum of the `numDocs` fields of the shard outputs. -/
def totalNumDocs : List rankerReturnRequest → Int
  | [] => 0
  | r :: rs => r.numDocs + totalNumDocs rs

/-- The specification's offset/limit: the sorted candidates without their first
`min(OutputOffset, length)` elements, then cut to `MaxOutputs` elements unless
`MaxOutputs` is 0. -/
def Spec.clip (rankOptions : RankOptions) (sorted : List ScoredDocument) : List ScoredDocument :=
  let rest := sorted.drop (min rankOptions.OutputOffset.toNat sorted.length)
  if rankOptions.MaxOutputs = 0 then rest else rest.take rankOptions.MaxOutputs.toNat

/-- An engine that went through `Init`: the flag is set and every shard has its lookup
channel. -/
def Engine.Ready (engine : Engine) : Prop :=
  engine.initialized = true ∧ 0 ≤ engine.initOptions.NumShards ∧
    sendAll engine.indexerLookupChannels engine.initOptions.NumShards.toNat = none

instance (engine : Engine) : Decidable engine.Ready := by
  unfold Engine.Ready; infer_instance

/-- Sample data: a candidate with a one-component score vector. -/
def Sample.doc (docId : Nat) (score : Score) : ScoredDocument :=
  { DocId := docId, Scores := [score], TokenSnippetLocations := [] }

/-- Sample data: rank options with no criterion of their own. -/
def Sample.rank (offset maxOutputs : Int) (reverseOrder : Bool) : RankOptions :=
  { ScoringCriteria := none, OutputOffset := offset, MaxOutputs := maxOutputs,
    ReverseOrder := reverseOrder }

/-- Sample data: init options for `numShards` shards, default
`{OutputOffset: 0, MaxOutputs: 10}` as in the engine tests. -/
def Sample.options (numShards : Int) (persistent : Bool) : EngineInitOptions where
  SegmenterDictionaries := [100]
  StopTokenFile := []
  NumShards := numShards
  NumSegmenterThreads := 1
  IndexerBufferLength := 1
  RankerBufferLength := 1
  DefaultRankOptions :=
    { ScoringCriteria := some 0, OutputOffset := 0, MaxOutputs := 10, ReverseOrder := false }
  UsePersistentStorage := persistent
  PersistentStorageFolder := [119]

/-- Sample data: an initialised engine with `numShards` shards and the given stores; its
segmenter cuts a text into its bytes and the stop token is the blank. -/
def Sample.engine (numShards : Nat) (persistent : Bool)
    (dbs : List (Option Storage × Option Storage)) : Engine where
  numDocumentsIndexed := 0
  numIndexingRequests := 0
  numTokenIndexAdded := 0
  numDocumentsStored := 0
  initOptions := Sample.options numShards persistent
  initialized := true
  indexers := (List.range numShards).map (fun shard => some (shard : Int))
  rankers := (List.range numShards).map (fun shard => some (shard : Int))
  segmenter := fun text => text.map (fun b => [b])
  stopTokens := fun token => decide (token = [32])
  dbs := dbs
  segmenterChannel := some 1
  indexerAddDocumentChannels := List.replicate numShards (some 1)
  indexerLookupChannels := List.replicate numShards (some 1)
  indexerRemoveDocChannels := List.replicate numShards (some 1)
  rankerAddDocChannels := List.replicate numShards (some 1)
  rankerRankChannels := List.replicate numShards (some 1)
  rankerRemoveDocChannels := List.replicate numShards (some 1)
  persistentStorageIndexDocumentChannels :=
    if persistent then List.replicate numShards (some 0) else []
  persistentStorageInitChannel := if persistent then some (numShards : Int) else none

/-- Sample data: a request for the tokens `a b` with the given flags and rank options. -/
def Sample.request (countDocsOnly orderless : Bool) (rankOptions : Option RankOptions) :
    SearchRequest where
  Text := []
  Tokens := [[97], [98]]
  Labels := []
  DocIds := []
  CountDocsOnly := countDocsOnly
  Orderless := orderless
  Timeout := 0
  RankOptions := rankOptions

/-- Sample data: the outputs of two shards, four candidates in all, two of them with
equal scores. -/
def Sample.outputs : List rankerReturnRequest :=
  [{ docs := [Sample.doc 1 3, Sample.doc 4 1], numDocs := 2 },
   { docs := [Sample.doc 2 2, Sample.doc 3 2], numDocs := 2 }]

deriving instance DecidableEq for Except

/-- The decimal digits of a number, as `fmt` prints an unsigned integer. -/
def decimal (n : Nat) : GoString :=
  (Nat.toDigits 10 n).map (fun c => UInt8.ofNat c.toNat)

/-- Go's `fmt.Sprint("%d", docId)`. `Sprint` has no format argument: it prints its
operands one after the other (a blank is put between two operands only when neither is a
string), so the result is the two bytes `%d` followed by the decimal digits. -/
def fmtSprint (docId : Nat) : GoString :=
  [37, 100] ++ decimal docId

/-- Go's `fmt.Sprintf("%d", docId)`: the decimal string form of `docId`. -/
def fmtSprintf (docId : Nat) : GoString :=
  decimal docId

/-- Go's conversion `uint32(x)` of an `int`. -/
def toUint32 (x : Int) : Nat := (x % 2 ^ 32).toNat

/-- `IndexDocument`, line 237: `int(murmur.Murmur3(key) % uint32(NumShards))`. The hash
is a parameter; its value is read as a `uint32`. A zero divisor panics. -/
def IndexDocument.shard (Murmur3 : GoString → Nat) (numShards : Int) (docId : Nat) :
    Except Failure Int :=
  let hash := Murmur3 (fmtSprint docId) % 2 ^ 32
  let divisor := toUint32 numShards
  if divisor = 0 then .error .panicked
  else .ok ((hash % divisor : Nat) : Int)

/-- `Engine.IndexDocument`: the engine afterwards, and the request put on the segmenter
channel. -/
def IndexDocument (Murmur3 : GoString → Nat) (engine : Engine) (docId : Nat) :
    Engine × Except Failure segmenterRequest :=
  if !engine.initialized then (engine, .error .fatal)
  else
    -- atomic.AddUint64(&engine.numIndexingRequests, 1)
    let engine := { engine with numIndexingRequests := (engine.numIndexingRequests + 1) % 2 ^ 64 }
    match IndexDocument.shard Murmur3 engine.initOptions.NumShards docId with
    | .error f => (engine, .error f)
    | .ok shard =>
      match engine.segmenterChannel with
      | none => (engine, .error .blocked)
      | some _ => (engine, .ok { docId := docId, shard := shard })

/-- `RemoveDocument`, line 272: `int(murmur.Murmur3(key)) % NumShards`, with Go's
truncated remainder on 64-bit ints (`int` of a `uint32` keeps the value). A zero divisor
panics. -/
def RemoveDocument.shard (Murmur3 : GoString → Nat) (numShards : Int) (docId : Nat) :
    Except Failure Int :=
  let hash : Int := ((Murmur3 (fmtSprint docId) % 2 ^ 32 : Nat) : Int)
  if numShards = 0 then .error .panicked
  else .ok (Int.tmod hash numShards)

/-- `RemoveDocument`, lines 265-268: the remove requests, to the indexer and then the
ranker of each shard in turn; the first failure, if any. -/
def RemoveDocument.broadcast (engine : Engine) : Option Failure :=
  (List.range engine.initOptions.NumShards.toNat).findSome? fun shard =>
    match sendOne engine.indexerRemoveDocChannels shard with
    | some f => some f
    | none => sendOne engine.rankerRemoveDocChannels shard

/-- `Engine.RemoveDocument`: the shard handed to the worker that deletes the persisted
record, `none` without persistent storage. -/
def RemoveDocument (Murmur3 : GoString → Nat) (engine : Engine) (docId : Nat) :
    Except Failure (Option Int) :=
  if !engine.initialized then .error .fatal
  else
    match RemoveDocument.broadcast engine with
    | some f => .error f
    | none =>
      if engine.initOptions.UsePersistentStorage then
        match RemoveDocument.shard Murmur3 engine.initOptions.NumShards docId with
        | .error f => .error f
        | .ok shard => .ok (some shard)
      else .ok none

/-- `getDB`. -/
def getDB (typ : String) : Except Failure Nat :=
  if typ = "info" then .ok 0
  else if typ = "index" then .ok 1
  else .error .fatal

/-- The element `db[i]` of a `[2]storage.Storage`. -/
def dbAt (db : Option Storage × Option Storage) (i : Nat) : Except Failure (Option Storage) :=
  if i = 0 then .ok db.1 else if i = 1 then .ok db.2 else .error .panicked

/-- Modelled from the spec: `Storage.ForEach`, the iterator of the key-value store; it
calls `fn` on every entry in store order and stops at the first failure. -/
def ForEach {σ : Type} : Storage → (σ → GoString → GoString → Except Failure σ) → σ →
    Except Failure σ
  | [], _, s => .ok s
  | (k, v) :: rest, fn, s =>
    match fn s k v with
    | .error f => .error f
    | .ok s' => ForEach rest fn s'

/-- `suggestion`, lines 24-30: the callback given to `ForEach`, on the variables `res`
and `i` it captures. `res[i] = str` panics when `i` is not below `len(res)`. -/
def suggestion.visit (key : GoString) (state : List GoString × Nat) (k _v : GoString) :
    Except Failure (List GoString × Nat) :=
  let str := k
  if key.isPrefixOf str then
    if state.2 < state.1.length then .ok (state.1.set state.2 str, state.2 + 1)
    else .error .panicked
  else .ok state

/-- `suggestion`, lines 22-32: the loop over the shards' stores. Calling `ForEach` on a
nil store panics. -/
def suggestion.scan (key : GoString) :
    List (Option Storage × Option Storage) → List GoString × Nat →
    Except Failure (List GoString × Nat)
  | [], state => .ok state
  | db :: rest, state =>
    match getDB "index" with
    | .error f => .error f
    | .ok typ =>
      match dbAt db typ with
      | .error f => .error f
      | .ok none => .error .panicked
      | .ok (some store) =>
        match ForEach store (suggestion.visit key) state with
        | .error f => .error f
        | .ok state' => suggestion.scan key rest state'

/-- `Engine.suggestion`. -/
def suggestion (engine : Engine) (key : GoString) : Except Failure (List GoString) :=
  if !engine.initialized then .error .fatal
  else
    -- res := make([]string, 10)
    let res : List GoString := List.replicate 10 []
    let scanned :=
      if engine.initOptions.UsePersistentStorage then suggestion.scan key engine.dbs (res, 0)
      else .ok (res, 0)
    match scanned with
    | .error f => .error f
    | .ok (res, _) =>
      if res.length ≥ 10 then .ok (res.take 10)
      else .ok res

/-- The keys of the shards' index stores, in scan order. -/
def indexKeys : List (Option Storage × Option Storage) → List GoString
  | [] => []
  | db :: rest => (match db.2 with
      | some store => store.map Prod.fst
      | none => []) ++ indexKeys rest

/-- The keys `suggestion` should collect: those of the index stores that start with
`key`, in scan order; none without persistent storage. -/
def Spec.matches (engine : Engine) (key : GoString) : List GoString :=
  if engine.initOptions.UsePersistentStorage then
    (indexKeys engine.dbs).filter (fun k => key.isPrefixOf k)
  else []

/-- Sample data: a hash, the sum of the bytes of the key. -/
def Sample.hash (key : GoString) : Nat :=
  (key.map UInt8.toNat).sum

/-- Sample data: an index store with `n` keys, the byte `a` followed by the decimal digits
of 0, 1, ..., `n - 1`; the values are empty. -/
def Sample.store (n : Nat) : Storage :=
  (List.range n).map (fun i => (97 :: decimal i, []))

/-- The ten-slot result array holding `found` in its first slots, empty strings after. -/
def suggestion.slots (found : List GoString) : List GoString :=
  found ++ List.replicate (10 - found.length) []

/-- Every shard's index store is open. -/
def IndexStoresOpen : List (Option Storage × Option Storage) → Prop
  | [] => True
  | db :: rest => db.2 ≠ none ∧ IndexStoresOpen rest

/-- The constant `PersistentStorageFilePrefix`, the bytes of `wukong`. -/
def PersistentStorageFilePrefix : GoString := [119, 117, 107, 111, 110, 103]

/-- The environment of `Init`: what the calls that leave `engine.go` answer.
`optionsInit` is `options.Init()` (the options with their defaults, or the failure it
ends with), `loadDictionary` and `stopTokensInit` the loading of the segmenter and of the
stop tokens, `indexerInit` and `rankerInit` the initialisation of a shard's indexer and
ranker (`some f` when it fails), `mkdirAll` and `openStorage` the file system and the
key-value store (`false` and `none` for an error), and `recovery` the restoring workers:
`some k` when every shard's worker reports, having replayed `k` records through the
indexing path, `none` when one never reports. -/
structure InitEnv where
  optionsInit : EngineInitOptions → Except Failure EngineInitOptions
  loadDictionary : GoString → Except Failure (GoString → List GoString)
  stopTokensInit : GoString → Except Failure (GoString → Bool)
  indexerInit : EngineInitOptions → Int → Option Failure
  rankerInit : Int → Option Failure
  mkdirAll : GoString → Bool
  openStorage : GoString → Option Storage
  recovery : List (Option Storage × Option Storage) → Option Nat

/-- Sequencing of the steps of `Init`: a step that fails ends `Init` in the state it
reached. -/
def andThen (r : Engine × Option Failure) (next : Engine → Engine × Option Failure) :
    Engine × Option Failure :=
  match r.2 with
  | some _ => r
  | none => next r.1

/-- `Init`, lines 80-86: one indexer and one ranker per shard, appended and then
initialised in place. -/
def Init.shards (env : InitEnv) (options : EngineInitOptions) :
    Nat → Int → Engine → Engine × Option Failure
  | 0, _, engine => (engine, none)
  | n + 1, shard, engine =>
    let engine := { engine with indexers := engine.indexers ++ [none] }
    match env.indexerInit options shard with
    | some f => (engine, some f)
    | none =>
      let engine := { engine with indexers := engine.indexers.set shard.toNat (some shard) }
      let engine := { engine with rankers := engine.rankers ++ [none] }
      match env.rankerInit shard with
      | some f => (engine, some f)
      | none =>
        let engine := { engine with rankers := engine.rankers.set shard.toNat (some shard) }
        Init.shards env options n (shard + 1) engine

/-- `Init`, lines 88-128: the segmenter channel and the per-shard indexer and ranker
channels. `make` panics on a negative size. -/
def Init.channels (options : EngineInitOptions) (engine : Engine) : Engine × Option Failure :=
  if options.NumSegmenterThreads < 0 then (engine, some .panicked)
  else
    let engine := { engine with segmenterChannel := some options.NumSegmenterThreads }
    if options.NumShards < 0 then (engine, some .panicked)
    else
      let n := options.NumShards.toNat
      let engine := { engine with
        indexerAddDocumentChannels := List.replicate n none
        indexerRemoveDocChannels := List.replicate n none
        indexerLookupChannels := List.replicate n none }
      if 0 < n ∧ options.IndexerBufferLength < 0 then (engine, some .panicked)
      else
        let engine := { engine with
          indexerAddDocumentChannels := List.replicate n (some options.IndexerBufferLength)
          indexerRemoveDocChannels := List.replicate n (some options.IndexerBufferLength)
          indexerLookupChannels := List.replicate n (some options.IndexerBufferLength) }
        let engine := { engine with
          rankerAddDocChannels := List.replicate n none
          rankerRankChannels := List.replicate n none
          rankerRemoveDocChannels := List.replicate n none }
        if 0 < n ∧ options.RankerBufferLength < 0 then (engine, some .panicked)
        else
          ({ engine with
            rankerAddDocChannels := List.replicate n (some options.RankerBufferLength)
            rankerRankChannels := List.replicate n (some options.RankerBufferLength)
            rankerRemoveDocChannels := List.replicate n (some options.RankerBufferLength) },
           none)

/-- `Init`, lines 130-141: the channels of the persistent storage, unbuffered per shard
and one of capacity `NumShards` for the restore reports. -/
def Init.storageChannels (engine : Engine) : Engine × Option Failure :=
  if engine.initOptions.UsePersistentStorage then
    if engine.initOptions.NumShards < 0 then (engine, some .panicked)
    else
      ({ engine with
        persistentStorageIndexDocumentChannels :=
          List.replicate engine.initOptions.NumShards.toNat (some 0)
        persistentStorageInitChannel := some engine.initOptions.NumShards },
       none)
  else (engine, none)

/-- The path of a shard's store: folder, `/`, the file prefix, `.info.` or `.index.`,
the shard number. -/
def Init.storePath (engine : Engine) (kind : GoString) (shard : Nat) : GoString :=
  engine.initOptions.PersistentStorageFolder ++ [47] ++ PersistentStorageFilePrefix ++ kind ++
    decimal shard

/-- `Init`, lines 172-186 and 199-214: both stores of every shard are opened and put in
`dbs[shard]` (slot 0 is `info`, slot 1 `index`, as `getDB` numbers them); a store that
does not open is fatal. -/
def Init.openStores (env : InitEnv) : Nat → Nat → Engine → Engine × Option Failure
  | 0, _, engine => (engine, none)
  | n + 1, shard, engine =>
    match env.openStorage (Init.storePath engine [46, 105, 110, 102, 111, 46] shard) with
    | none => (engine, some .fatal)
    | some dbInfo =>
      match env.openStorage
          (Init.storePath engine [46, 105, 110, 100, 101, 120, 46] shard) with
      | none => (engine, some .fatal)
      | some dbIndex =>
        Init.openStores env n (shard + 1)
          { engine with dbs := engine.dbs.set shard (some dbInfo, some dbIndex) }

/-- `Init`, lines 163-219: the persistent storage. The folder is made, the stores are
opened, the restoring workers replay the stored documents (each replay is an indexing
request) and `Init` waits for their reports, then the stores are closed and opened
again. -/
def Init.storage (env : InitEnv) (engine : Engine) : Engine × Option Failure :=
  if engine.initOptions.UsePersistentStorage then
    if !env.mkdirAll engine.initOptions.PersistentStorageFolder then (engine, some .fatal)
    else if engine.initOptions.NumShards < 0 then (engine, some .panicked)
    else
      let n := engine.initOptions.NumShards.toNat
      let engine := { engine with dbs := List.replicate n (none, none) }
      andThen (Init.openStores env n 0 engine) fun engine =>
        match env.recovery engine.dbs with
        | none => (engine, some .blocked)
        | some replayed =>
          let engine := { engine with
            numIndexingRequests := (engine.numIndexingRequests + replayed) % 2 ^ 64 }
          Init.openStores env n 0 engine
  else (engine, none)

/-- `Engine.Init`: the engine as `Init` leaves it, and the failure it ended with, if any.
The goroutines it starts are the workers of the environment. -/
def Init (env : InitEnv) (engine : Engine) (options : EngineInitOptions) :
    Engine × Option Failure :=
  if engine.initialized then (engine, some .fatal)
  else
    match env.optionsInit options with
    | .error f => (engine, some f)
    | .ok options =>
      let engine := { engine with initOptions := options, initialized := true }
      match env.loadDictionary options.SegmenterDictionaries with
      | .error f => (engine, some f)
      | .ok segmenter =>
        let engine := { engine with segmenter := segmenter }
        match env.stopTokensInit options.StopTokenFile with
        | .error f => (engine, some f)
        | .ok stopTokens =>
          let engine := { engine with stopTokens := stopTokens }
          andThen (Init.shards env options options.NumShards.toNat 0 engine) fun engine =>
          andThen (Init.channels options engine) fun engine =>
          andThen (Init.storageChannels engine) fun engine =>
          Init.storage env engine

/-- Sample data: the zero value of `Engine`, as `var engine Engine` declares it. -/
def Sample.fresh : Engine where
  numDocumentsIndexed := 0
  numIndexingRequests := 0
  numTokenIndexAdded := 0
  numDocumentsStored := 0
  initOptions :=
    { SegmenterDictionaries := [], StopTokenFile := [], NumShards := 0,
      NumSegmenterThreads := 0, IndexerBufferLength := 0, RankerBufferLength := 0,
      DefaultRankOptions :=
        { ScoringCriteria := none, OutputOffset := 0, MaxOutputs := 0, ReverseOrder := false },
      UsePersistentStorage := false, PersistentStorageFolder := [] }
  initialized := false
  indexers := []
  rankers := []
  segmenter := fun _ => []
  stopTokens := fun _ => false
  dbs := []
  segmenterChannel := none
  indexerAddDocumentChannels := []
  indexerLookupChannels := []
  indexerRemoveDocChannels := []
  rankerAddDocChannels := []
  rankerRankChannels := []
  rankerRemoveDocChannels := []
  persistentStorageIndexDocumentChannels := []
  persistentStorageInitChannel := none

/-- Sample data: an environment in which every call succeeds; stores open empty. -/
def Sample.env : InitEnv where
  optionsInit := fun options => .ok options
  loadDictionary := fun _ => .ok (fun text => text.map (fun b => [b]))
  stopTokensInit := fun _ => .ok (fun token => decide (token = [32]))
  indexerInit := fun _ _ => none
  rankerInit := fun _ => none
  mkdirAll := fun _ => true
  openStorage := fun _ => some []
  recovery := fun _ => some 0

/-- An environment in which `Init` with these options meets no failure: every call
succeeds and the sizes given to `make` are not negative. -/
def Init.Succeeds (env : InitEnv) (options : EngineInitOptions) : Prop :=
  ∃ o, env.optionsInit options = .ok o ∧
    (∃ segmenter, env.loadDictionary o.SegmenterDictionaries = .ok segmenter) ∧
    (∃ stopTokens, env.stopTokensInit o.StopTokenFile = .ok stopTokens) ∧
    (∀ shard, env.indexerInit o shard = none) ∧ (∀ shard, env.rankerInit shard = none) ∧
    0 ≤ o.NumShards ∧ 0 ≤ o.NumSegmenterThreads ∧ 0 ≤ o.IndexerBufferLength ∧
    0 ≤ o.RankerBufferLength ∧
    (o.UsePersistentStorage = true →
      env.mkdirAll o.PersistentStorageFolder = true ∧ (∀ path, env.openStorage path ≠ none) ∧
        ∀ dbs, env.recovery dbs ≠ none)

/-- `Engine.Segment`: the segmenter's tokens of `content`, in order, without the stop
tokens. -/
def Segment (engine : Engine) (content : GoString) : List GoString :=
  (engine.segmenter content).filter (fun token => !engine.stopTokens token)

/-- `FlushIndex`, lines 281-283: the test that ends the loop. -/
def FlushIndex.done (engine : Engine) : Bool :=
  engine.numIndexingRequests == engine.numDocumentsIndexed &&
    (!engine.initOptions.UsePersistentStorage ||
      engine.numIndexingRequests == engine.numDocumentsStored)

/-- `Engine.FlushIndex`, as a loop over the successive states of the engine it observes
(the workers change the counters between two iterations): `observed k` is the engine at
the iteration numbered `k`. The result is the number of the iteration at which
`FlushIndex` returns, `none` when it is still spinning after `fuel` iterations. -/
def FlushIndex (observed : Nat → Engine) : Nat → Nat → Option Nat
  | 0, _ => none
  | fuel + 1, k =>
    if FlushIndex.done (observed k) then some k
    else FlushIndex observed fuel (k + 1)

/-- `Close`, lines 429-434: `Close()` on both stores of every shard; on a nil store it
panics. The result is the list of the stores closed. -/
def Close.stores : List (Option Storage × Option Storage) → Except Failure (List Storage)
  | [] => .ok []
  | (some info, some index) :: rest =>
    match Close.stores rest with
    | .error f => .error f
    | .ok closed => .ok (info :: index :: closed)
  | _ :: _ => .error .panicked

/-- `Engine.Close`: `FlushIndex`, then the in-memory index groups are replaced by empty
maps and, with persistent storage, the stores are closed. The result is `none` while
`FlushIndex` has not returned, else the stores closed or the failure. -/
def Close (observed : Nat → Engine) (fuel : Nat) : Option (Except Failure (List Storage)) :=
  match FlushIndex observed fuel 0 with
  | none => none
  | some k =>
    if (observed k).initOptions.UsePersistentStorage then some (Close.stores (observed k).dbs)
    else some (.ok [])

/-- Sample data: the engine states a flush observes after five indexing requests, with
the indexers catching up one document per iteration and the storage two iterations
behind them. -/
def Sample.flushing (persistent : Bool) (k : Nat) : Engine :=
  { Sample.engine 1 persistent [(some [], some [])] with
    numIndexingRequests := 5
    numDocumentsIndexed := min k 5
    numDocumentsStored := min (k - 2) 5 }

/-- Shard outputs none of whose candidates has a NaN score. -/
def NoNaNOutputs (recv : List (Option rankerReturnRequest)) : Prop :=
  ∀ out, some out ∈ recv → ∀ d ∈ out.docs, NoNaN d.Scores

/-- A comparator that orders by the score vector alone, without the docId tie-break;
used to show which results do not depend on the tie-break of `Less`. -/
def scoresLess (a b : ScoredDocument) : Bool :=
  moreScores a.Scores b.Scores

/-- Sample data: a candidate whose one score is NaN. -/
def Sample.nanDoc (docId : Nat) : ScoredDocument :=
  { DocId := docId, Scores := [Score.nan], TokenSnippetLocations := [] }

/-- Sample data: the output of one shard, a NaN score between the scores 1 and 2. -/
def Sample.nanOutput : List rankerReturnRequest :=
  [{ docs := [Sample.doc 1 1, Sample.nanDoc 2, Sample.doc 3 2], numDocs := 3 }]

/-- Sample data: the output of one shard, a NaN score between two candidates of score 2,
docId 4 before docId 3. -/
def Sample.nanTieOutput : List rankerReturnRequest :=
  [{ docs := [Sample.doc 1 1, Sample.doc 4 2, Sample.nanDoc 2, Sample.doc 3 2], numDocs := 4 }]

/-- Sample data: the outputs of two shards, the two candidates of equal score arriving
with docId 3 before docId 2. -/
def Sample.tieOutputs : List rankerReturnRequest :=
  [{ docs := [Sample.doc 1 3, Sample.doc 4 1], numDocs := 2 },
   { docs := [Sample.doc 3 2, Sample.doc 2 2], numDocs := 2 }]

/-- Rotation to the left of a 32-bit word. -/
def rotl32 (x r : Nat) : Nat :=
  ((x <<< r) ||| (x >>> (32 - r))) % 2 ^ 32

/-- MurmurHash3: the scrambling of one 32-bit block of the key. -/
def murmurScramble (k : Nat) : Nat :=
  rotl32 (k * 0xcc9e2d51 % 2 ^ 32) 15 * 0x1b873593 % 2 ^ 32

/-- MurmurHash3: the loop over the 4-byte blocks of the key (little-endian); the result
is the hash state and the bytes left over. -/
def murmurBody (h : Nat) : List UInt8 → Nat × List UInt8
  | a :: b :: c :: d :: rest =>
    let k := a.toNat ||| (b.toNat <<< 8) ||| (c.toNat <<< 16) ||| (d.toNat <<< 24)
    let h := h ^^^ murmurScramble k
    let h := rotl32 h 13
    let h := (h * 5 + 0xe6546b64) % 2 ^ 32
    murmurBody h rest
  | tail => (h, tail)

/-- MurmurHash3: the 32-bit word made of the one to three bytes left over. -/
def murmurTail : List UInt8 → Nat
  | [a] => a.toNat
  | [a, b] => a.toNat ||| (b.toNat <<< 8)
  | [a, b, c] => a.toNat ||| (b.toNat <<< 8) ||| (c.toNat <<< 16)
  | _ => 0

/-- MurmurHash3: the final mix. -/
def murmurFinal (h : Nat) : Nat :=
  let h := h ^^^ (h >>> 16)
  let h := h * 0x85ebca6b % 2 ^ 32
  let h := h ^^^ (h >>> 13)
  let h := h * 0xc2b2ae35 % 2 ^ 32
  h ^^^ (h >>> 16)

/-- MurmurHash3 (x86, 32 bits) with the given seed: the published algorithm that the
library `murmur.Murmur3` names. The library is not part of this repository; the
operations take the hash as a parameter, and this definition serves to evaluate them. -/
def murmur3 (seed : Nat) (key : GoString) : Nat :=
  let state := murmurBody seed key
  let h := state.1 ^^^ murmurScramble (murmurTail state.2)
  murmurFinal (h ^^^ key.length)

/-! ## Theorems -/

theorem wrapInt_of_isInt {x : Int} (h : IsInt x) : wrapInt x = x := by
  unfold IsInt at h
  unfold wrapInt
  omega

theorem wrapInt_add_wrapInt (a b : Int) : wrapInt (wrapInt a + b) = wrapInt (a + b) := by
  unfold wrapInt
  omega

theorem Score.lt_def (a b : Score) : a < b ↔ Score.lt a b = true := Iff.rfl

theorem Score.lt_irrefl' (a : Score) : ¬ a < a := by
  rw [Score.lt_def]
  cases a <;> simp only [Score.lt, decide_eq_true_eq, Bool.false_eq_true, not_false_eq_true]
  exact lt_irrefl _

theorem Score.lt_asymm' {a b : Score} (h : a < b) : ¬ b < a := by
  rw [Score.lt_def] at h ⊢
  cases a <;> cases b <;>
    simp only [Score.lt, decide_eq_true_eq, Bool.false_eq_true, not_false_eq_true] at h ⊢
  exact lt_asymm h

theorem Score.lt_trans' {a b c : Score} (h1 : a < b) (h2 : b < c) : a < c := by
  rw [Score.lt_def] at h1 h2 ⊢
  cases a <;> cases b <;> cases c <;>
    simp only [Score.lt, decide_eq_true_eq, Bool.false_eq_true] at h1 h2 ⊢
  exact lt_trans h1 h2

theorem Score.eq_of_not_lt {a b : Score} (ha : a ≠ Score.nan) (hb : b ≠ Score.nan)
    (h1 : ¬ a < b) (h2 : ¬ b < a) : a = b := by
  rw [Score.lt_def] at h1 h2
  cases a <;> cases b <;>
    simp only [Score.lt, decide_eq_true_eq, Bool.false_eq_true, not_false_eq_true,
      not_true_eq_false, ne_eq] at h1 h2 ha hb ⊢
  exact congrArg Score.num (le_antisymm (not_lt.mp h2) (not_lt.mp h1))

theorem moreScores_cons {x y : Score} (xs ys : List Score) (hx : x ≠ Score.nan)
    (hy : y ≠ Score.nan) :
    moreScores (x :: xs) (y :: ys) = true ↔ y < x ∨ (x = y ∧ moreScores xs ys = true) := by
  simp only [moreScores]
  split_ifs with h1 h2
  · simp [h1]
  · constructor
    · intro h; exact absurd h (by simp)
    · rintro (h | ⟨rfl, -⟩)
      · exact absurd h h1
      · exact absurd h2 (Score.lt_irrefl' _)
  · have he := Score.eq_of_not_lt hx hy h2 h1
    constructor
    · intro h; exact Or.inr ⟨he, h⟩
    · rintro (h | ⟨-, h⟩)
      · exact absurd h h1
      · exact h

theorem moreScores_irrefl (a : List Score) : moreScores a a = false := by
  induction a with
  | nil => rfl
  | cons x xs ih => simp [moreScores, ih, Score.lt_irrefl']

theorem moreScores_asymm : ∀ (a b : List Score), moreScores a b = true → moreScores b a = false
  | [], _, h => by simp [moreScores] at h
  | _ :: _, [], _ => by simp [moreScores]
  | x :: xs, y :: ys, h => by
    simp only [moreScores] at h ⊢
    split_ifs at h ⊢ with h1 h2 h3
    · exact absurd h1 (Score.lt_asymm' h2)
    · rfl
    · exact moreScores_asymm xs ys h

theorem moreScores_total : ∀ (a b : List Score), NoNaN a → NoNaN b →
    moreScores a b = false → moreScores b a = false → a = b
  | [], [], _, _, _, _ => rfl
  | [], _ :: _, _, _, _, h => by simp [moreScores] at h
  | _ :: _, [], _, _, h, _ => by simp [moreScores] at h
  | x :: xs, y :: ys, ha, hb, h, h' => by
    have hx : x ≠ Score.nan := ha x (List.mem_cons_self _ _)
    have hy : y ≠ Score.nan := hb y (List.mem_cons_self _ _)
    have hxs : NoNaN xs := fun s hs => ha s (List.mem_cons_of_mem _ hs)
    have hys : NoNaN ys := fun s hs => hb s (List.mem_cons_of_mem _ hs)
    simp only [moreScores] at h h'
    split_ifs at h h' with h1 h2
    have hxy : x = y := Score.eq_of_not_lt hx hy h2 h1
    rw [hxy, moreScores_total xs ys hxs hys h h']

theorem moreScores_trans : ∀ (a b c : List Score), NoNaN a → NoNaN b → NoNaN c →
    moreScores a b = true → moreScores b c = true → moreScores a c = true
  | [], _, _, _, _, _, h, _ => by simp [moreScores] at h
  | _ :: _, [], _, _, _, _, _, h => by simp [moreScores] at h
  | _ :: _, _ :: _, [], _, _, _, _, _ => by simp [moreScores]
  | x :: xs, y :: ys, z :: zs, ha, hb, hc, h, h' => by
    have hx : x ≠ Score.nan := ha x (List.mem_cons_self _ _)
    have hy : y ≠ Score.nan := hb y (List.mem_cons_self _ _)
    have hz : z ≠ Score.nan := hc z (List.mem_cons_self _ _)
    have hxs : NoNaN xs := fun s hs => ha s (List.mem_cons_of_mem _ hs)
    have hys : NoNaN ys := fun s hs => hb s (List.mem_cons_of_mem _ hs)
    have hzs : NoNaN zs := fun s hs => hc s (List.mem_cons_of_mem _ hs)
    rw [moreScores_cons _ _ hx hy] at h
    rw [moreScores_cons _ _ hy hz] at h'
    rw [moreScores_cons _ _ hx hz]
    rcases h with h | ⟨rfl, h⟩ <;> rcases h' with h' | ⟨rfl, h'⟩
    · exact Or.inl (Score.lt_trans' h' h)
    · exact Or.inl h
    · exact Or.inl h'
    · exact Or.inr ⟨rfl, moreScores_trans xs ys zs hxs hys hzs h h'⟩

theorem Less_iff (a b : ScoredDocument) (ha : NoNaN a.Scores) (hb : NoNaN b.Scores) :
    Less a b = true ↔
      moreScores a.Scores b.Scores = true ∨ (a.Scores = b.Scores ∧ a.DocId < b.DocId) := by
  unfold Less
  constructor
  · intro h
    cases hab : moreScores a.Scores b.Scores
    · right
      simp [hab] at h
      exact ⟨moreScores_total _ _ ha hb hab h.1, h.2⟩
    · left; rfl
  · rintro (h | ⟨h1, h2⟩)
    · simp [h]
    · simp [h1, moreScores_irrefl, h2]

theorem Less_eq_false_iff (a b : ScoredDocument) (ha : NoNaN a.Scores) (hb : NoNaN b.Scores) :
    Less a b = false ↔
      moreScores a.Scores b.Scores = false ∧ (a.Scores = b.Scores → b.DocId ≤ a.DocId) := by
  rw [← Bool.not_eq_true, Less_iff a b ha hb]
  constructor
  · intro h
    refine ⟨?_, fun he => ?_⟩
    · cases hm : moreScores a.Scores b.Scores
      · rfl
      · exact absurd (Or.inl hm) h
    · by_contra hlt
      exact h (Or.inr ⟨he, by omega⟩)
  · rintro ⟨h1, h2⟩ (h | ⟨he, hlt⟩)
    · rw [h1] at h; exact Bool.false_ne_true h
    · have := h2 he; omega

/-- On candidates without NaN the comparator is a strict weak order. -/
theorem strictWeakOn_Less (l : List ScoredDocument) (hl : ∀ d ∈ l, NoNaN d.Scores) :
    StrictWeakOn Less l := by
  refine ⟨fun a ha b hb h => ?_, fun a ha b hb c hc hba hcb => ?_⟩
  · rw [Less_iff a b (hl a ha) (hl b hb)] at h
    rw [Less_eq_false_iff b a (hl b hb) (hl a ha)]
    rcases h with h | ⟨he, hlt⟩
    · refine ⟨moreScores_asymm _ _ h, fun he => ?_⟩
      rw [he, moreScores_irrefl] at h
      exact absurd h Bool.false_ne_true
    · refine ⟨by rw [he]; exact moreScores_irrefl _, fun _ => by omega⟩
  · rw [Less_eq_false_iff b a (hl b hb) (hl a ha)] at hba
    rw [Less_eq_false_iff c b (hl c hc) (hl b hb)] at hcb
    rw [Less_eq_false_iff c a (hl c hc) (hl a ha)]
    obtain ⟨hba, hba'⟩ := hba
    obtain ⟨hcb, hcb'⟩ := hcb
    have hca : moreScores c.Scores a.Scores = false := by
      cases hm : moreScores c.Scores a.Scores
      · rfl
      · exfalso
        cases hab : moreScores a.Scores b.Scores
        · have he := moreScores_total _ _ (hl a ha) (hl b hb) hab hba
          rw [he, hcb] at hm
          exact Bool.false_ne_true hm
        · have := moreScores_trans _ _ _ (hl c hc) (hl a ha) (hl b hb) hm hab
          rw [hcb] at this
          exact Bool.false_ne_true this
    refine ⟨hca, fun he => ?_⟩
    have hbc : moreScores b.Scores c.Scores = false := by rw [he]; exact hba
    have hcb2 : c.Scores = b.Scores := moreScores_total _ _ (hl c hc) (hl b hb) hcb hbc
    have h1 := hcb' hcb2
    have h2 := hba' (by rw [← hcb2, he])
    omega

theorem strictWeakOn_reverseLess {less : ScoredDocument → ScoredDocument → Bool}
    {l : List ScoredDocument} (h : StrictWeakOn less l) :
    StrictWeakOn (reverseLess less) l := by
  refine ⟨fun a ha b hb hab => h.1 b hb a ha hab, fun a ha b hb c hc hba hcb => ?_⟩
  exact h.2 c hc b hb a ha hcb hba

theorem strictWeak_reverseLess {less : ScoredDocument → ScoredDocument → Bool}
    (h : StrictWeak less) : StrictWeak (reverseLess less) := by
  refine ⟨fun a b hab => h.1 b a hab, fun a b c hba hcb => ?_⟩
  exact h.2 c b a hcb hba

theorem goInsert_perm (less : ScoredDocument → ScoredDocument → Bool) (x : ScoredDocument) :
    ∀ r : List ScoredDocument, (goInsert less x r).Perm (x :: r)
  | [] => List.Perm.refl _
  | y :: ys => by
    simp only [goInsert]
    split_ifs
    · exact (List.Perm.cons y (goInsert_perm less x ys)).trans (List.Perm.swap x y ys)
    · exact List.Perm.refl _

theorem goInsert_sorted (less : ScoredDocument → ScoredDocument → Bool)
    (l : List ScoredDocument) (h : StrictWeakOn less l) (x : ScoredDocument) (hx : x ∈ l) :
    ∀ r : List ScoredDocument, (∀ y ∈ r, y ∈ l) →
      r.Pairwise (fun a b => less a b = false) →
      (goInsert less x r).Pairwise (fun a b => less a b = false)
  | [], _, _ => by simp [goInsert]
  | y :: ys, hmem, hr => by
    have hy : ∀ c ∈ ys, less y c = false := fun c hc => List.rel_of_pairwise_cons hr hc
    have hyl : y ∈ l := hmem y (List.mem_cons_self _ _)
    have hys : ∀ c ∈ ys, c ∈ l := fun c hc => hmem c (List.mem_cons_of_mem _ hc)
    simp only [goInsert]
    split_ifs with hxy
    · refine List.Pairwise.cons ?_ (goInsert_sorted less l h x hx ys hys hr.of_cons)
      intro c hc
      rcases List.mem_cons.mp ((goInsert_perm less x ys).subset hc) with rfl | hc'
      · exact h.1 _ hx _ hyl hxy
      · exact hy c hc'
    · refine List.Pairwise.cons ?_ hr
      intro c hc
      rcases List.mem_cons.mp hc with rfl | hc
      · simpa using hxy
      · exact h.2 c (hys c hc) y hyl x hx (hy c hc) (by simpa using hxy)

theorem goFold_sorted (less : ScoredDocument → ScoredDocument → Bool)
    (l : List ScoredDocument) (h : StrictWeakOn less l) :
    ∀ (rest acc : List ScoredDocument), (∀ x ∈ rest, x ∈ l) → (∀ y ∈ acc, y ∈ l) →
      acc.Pairwise (fun a b => less a b = false) →
      (rest.foldl (fun before x => goInsert less x before) acc).Pairwise
        (fun a b => less a b = false)
  | [], _, _, _, hacc => hacc
  | x :: xs, acc, hrest, hmem, hacc => by
    have hx : x ∈ l := hrest x (List.mem_cons_self _ _)
    refine goFold_sorted less l h xs _ (fun y hy => hrest y (List.mem_cons_of_mem _ hy)) ?_
      (goInsert_sorted less l h x hx acc hmem hacc)
    intro y hy
    rcases List.mem_cons.mp ((goInsert_perm less x acc).subset hy) with rfl | hy'
    · exact hx
    · exact hmem y hy'

/-- Go's `insertionSort` leaves sorted every slice on whose elements `Less` is a strict
weak order. -/
theorem goSorter_local : goSorter.Local := by
  intro less l h
  show IsSortedBy less (goInsertionSort less l)
  unfold IsSortedBy goInsertionSort
  rw [List.pairwise_reverse]
  exact goFold_sorted less l h l [] (fun _ hx => hx) (fun _ hy => absurd hy (List.not_mem_nil _))
    List.Pairwise.nil

theorem collect_all (c timed : Bool) : ∀ (rs : List rankerReturnRequest)
    (docs : List ScoredDocument) (m : Int) (t : Bool),
    Search.collect c timed rs.length (rs.map some) docs (wrapInt m) t =
      .ok (if c then docs else docs ++ aggregate rs, wrapInt (m + totalNumDocs rs), t)
  | [], docs, m, t => by
    cases c <;> simp [Search.collect, aggregate, totalNumDocs]
  | r :: rs, docs, m, t => by
    simp only [List.length_cons, List.map_cons, Search.collect, addInt, wrapInt_add_wrapInt]
    rw [collect_all c timed rs]
    cases c <;> simp [aggregate, totalNumDocs, add_assoc]

theorem slice_eq_clip (ro : RankOptions) (l : List ScoredDocument)
    (hoff : 0 ≤ ro.OutputOffset) (hmax : 0 ≤ ro.MaxOutputs)
    (hfit : MinInt ro.OutputOffset l.length + ro.MaxOutputs < 2 ^ 63) :
    slice l (MinInt ro.OutputOffset l.length)
        (if ro.MaxOutputs = 0 then (l.length : Int)
         else MinInt (addInt (MinInt ro.OutputOffset l.length) ro.MaxOutputs) l.length) =
      .ok (Spec.clip ro l) := by
  have hstart : MinInt ro.OutputOffset l.length = (min ro.OutputOffset.toNat l.length : Nat) := by
    unfold MinInt
    split_ifs <;> omega
  have hadd : addInt (MinInt ro.OutputOffset l.length) ro.MaxOutputs =
      MinInt ro.OutputOffset l.length + ro.MaxOutputs := by
    apply wrapInt_of_isInt
    unfold IsInt
    omega
  rw [hadd, hstart]
  unfold Spec.clip slice
  generalize hk : min ro.OutputOffset.toNat l.length = k
  have hk' : k ≤ l.length := by omega
  by_cases h0 : ro.MaxOutputs = 0
  · simp only [h0, if_true]
    rw [if_pos (by omega)]
    congr 1
    simp only [Int.toNat_ofNat]
    apply List.take_of_length_le
    simp
  · simp only [h0, if_false]
    unfold MinInt
    split_ifs with h1 h2 h3
    · congr 1
      simp
    · omega
    · congr 1
      simp only [Int.toNat_ofNat]
      rw [List.take_of_length_le, List.take_of_length_le]
      · simp; omega
      · simp
    · omega

theorem Search_all_arrived (S : SortImpl) (engine : Engine) (request : SearchRequest)
    (rs : List rankerReturnRequest) (hready : engine.Ready)
    (hn : (rs.length : Int) = engine.initOptions.NumShards) :
    Search S engine request (rs.map some) =
      Search.output request (Search.rankOptions engine request) (Search.tokens engine request)
        (Search.resort S request (Search.rankOptions engine request)
          (if request.CountDocsOnly then [] else aggregate rs))
        (wrapInt (totalNumDocs rs)) false := by
  obtain ⟨hinit, hshards, hchan⟩ := hready
  have hlen : engine.initOptions.NumShards.toNat = rs.length := by omega
  have hcol := collect_all request.CountDocsOnly (decide (0 < request.Timeout)) rs [] 0 false
  have h0 : wrapInt 0 = 0 := by decide
  rw [h0] at hcol
  unfold Search
  rw [if_neg (by simp [hinit]), if_neg (by omega)]
  simp only [hchan]
  rw [hlen, hcol]
  simp

theorem collect_untimed_flag (c : Bool) : ∀ (n : Nat) (recv : List (Option rankerReturnRequest))
    (docs : List ScoredDocument) (m : Int) (L : List ScoredDocument) (k : Int) (t : Bool),
    Search.collect c false n recv docs m false = .ok (L, k, t) → t = false
  | 0, _, _, _, _, _, _, h => by
    simp only [Search.collect, Except.ok.injEq, Prod.mk.injEq] at h
    exact h.2.2.symm
  | n + 1, some r :: rest, docs, m, L, k, t, h => by
    simp only [Search.collect] at h
    exact collect_untimed_flag c n rest _ _ L k t h
  | n + 1, none :: rest, docs, m, L, k, t, h => by
    simp [Search.collect] at h
  | n + 1, [], docs, m, L, k, t, h => by
    simp [Search.collect] at h

theorem Search_ok_elim {S : SortImpl} {engine : Engine} {request : SearchRequest}
    {recv : List (Option rankerReturnRequest)} {response : SearchResponse}
    (h : Search S engine request recv = .ok response) :
    ∃ L numDocs isTimeout,
      Search.collect request.CountDocsOnly (decide (0 < request.Timeout))
        engine.initOptions.NumShards.toNat recv [] 0 false = .ok (L, numDocs, isTimeout) ∧
      Search.output request (Search.rankOptions engine request) (Search.tokens engine request)
        (Search.resort S request (Search.rankOptions engine request) L) numDocs isTimeout =
        .ok response := by
  unfold Search at h
  split_ifs at h
  split at h
  · exact absurd h (by simp)
  · split at h
    · exact absurd h (by simp)
    · rename_i L numDocs isTimeout hcol
      exact ⟨L, numDocs, isTimeout, hcol, h⟩

theorem slice_sublist {l docs : List ScoredDocument} {low high : Int}
    (h : slice l low high = .ok docs) : docs.Sublist l ∧ (docs.length : Int) ≤ high - low := by
  unfold slice at h
  split_ifs at h with hb
  simp only [Except.ok.injEq] at h
  subst h
  refine ⟨(List.take_sublist _ _).trans (List.drop_sublist _ _), ?_⟩
  have := List.length_take_le (high - low).toNat (List.drop low.toNat l)
  omega

theorem output_ok_elim {request : SearchRequest} {ro : RankOptions} {tokens : List GoString}
    {l : List ScoredDocument} {numDocs : Int} {isTimeout : Bool} {response : SearchResponse}
    (h : Search.output request ro tokens l numDocs isTimeout = .ok response) :
    response.Tokens = tokens ∧ response.NumDocs = numDocs ∧ response.Timeout = isTimeout ∧
    (request.CountDocsOnly = true → response.Docs = []) ∧
    (request.CountDocsOnly = false → request.Orderless = true → response.Docs = l) ∧
    (request.CountDocsOnly = false → request.Orderless = false →
      slice l (MinInt ro.OutputOffset l.length)
        (if ro.MaxOutputs = 0 then (l.length : Int)
         else MinInt (addInt (MinInt ro.OutputOffset l.length) ro.MaxOutputs) l.length) =
        .ok response.Docs) := by
  unfold Search.output at h
  cases hc : request.CountDocsOnly <;> cases ho : request.Orderless <;>
    simp only [hc, ho, Bool.not_false, Bool.not_true, if_true, if_false,
      Bool.false_eq_true] at h
  · split at h
    · exact absurd h (by simp)
    · rename_i docs hs
      simp only [Except.ok.injEq] at h
      subst h
      simp [hs]
  all_goals
    simp only [Except.ok.injEq] at h
    subst h
    simp

theorem output_sublist {request : SearchRequest} {ro : RankOptions} {tokens : List GoString}
    {l : List ScoredDocument} {numDocs : Int} {isTimeout : Bool} {response : SearchResponse}
    (h : Search.output request ro tokens l numDocs isTimeout = .ok response) :
    response.Docs.Sublist l := by
  obtain ⟨-, -, -, h1, h2, h3⟩ := output_ok_elim h
  cases hc : request.CountDocsOnly
  · cases ho : request.Orderless
    · exact (slice_sublist (h3 hc ho)).1
    · rw [h2 hc ho]
  · rw [h1 hc]; exact List.nil_sublist _


theorem slice_bounds {l docs : List ScoredDocument} {low high : Int}
    (h : slice l low high = .ok docs) : 0 ≤ low ∧ low ≤ high ∧ high ≤ l.length := by
  unfold slice at h
  split_ifs at h with hb
  exact hb

theorem resort_length (S : SortImpl) (request : SearchRequest) (ro : RankOptions)
    (l : List ScoredDocument) : (Search.resort S request ro l).length = l.length := by
  unfold Search.resort
  split_ifs
  · exact (S.perm _ _).length_eq
  · exact (S.perm _ _).length_eq
  · rfl

/-- When every shard output arrives and the offset and limit are in range, `Search`
returns, and this is its response. -/
theorem Search_returns (S : SortImpl) (engine : Engine) (request : SearchRequest)
    (rs : List rankerReturnRequest) (hready : engine.Ready)
    (hn : (rs.length : Int) = engine.initOptions.NumShards)
    (hoff : 0 ≤ (Search.rankOptions engine request).OutputOffset)
    (hmax : 0 ≤ (Search.rankOptions engine request).MaxOutputs)
    (hfit : MinInt (Search.rankOptions engine request).OutputOffset (aggregate rs).length +
      (Search.rankOptions engine request).MaxOutputs < 2 ^ 63) :
    Search S engine request (rs.map some) = .ok
      { Tokens := Search.tokens engine request
        Docs :=
          if request.CountDocsOnly then []
          else if request.Orderless then aggregate rs
          else Spec.clip (Search.rankOptions engine request)
            (Search.resort S request (Search.rankOptions engine request) (aggregate rs))
        NumDocs := wrapInt (totalNumDocs rs)
        Timeout := false } := by
  rw [Search_all_arrived S engine request rs hready hn]
  cases hc : request.CountDocsOnly
  · cases ho : request.Orderless
    · have hlen := resort_length S request (Search.rankOptions engine request) (aggregate rs)
      have hs := slice_eq_clip (Search.rankOptions engine request)
        (Search.resort S request (Search.rankOptions engine request) (aggregate rs))
        hoff hmax (by rw [hlen]; exact hfit)
      simp only [Search.output, hc, ho, Bool.not_false, if_true, Bool.false_eq_true, if_false]
      rw [hs]
    · simp [Search.output, Search.resort, hc, ho]
  · simp [Search.output, Search.resort, hc]

/-- Pagination as the spec states it, for every offset and limit whose sum stays in the
`int` range. -/
theorem Search_pagination (S : SortImpl) (engine : Engine) (request : SearchRequest)
    (rs : List rankerReturnRequest) (hready : engine.Ready)
    (hn : (rs.length : Int) = engine.initOptions.NumShards)
    (hc : request.CountDocsOnly = false) (ho : request.Orderless = false)
    (hoff : 0 ≤ (Search.rankOptions engine request).OutputOffset)
    (hmax : 0 ≤ (Search.rankOptions engine request).MaxOutputs)
    (hfit : MinInt (Search.rankOptions engine request).OutputOffset (aggregate rs).length +
      (Search.rankOptions engine request).MaxOutputs < 2 ^ 63) :
    ∃ response, Search S engine request (rs.map some) = .ok response ∧
      response.Docs = Spec.clip (Search.rankOptions engine request)
        (Search.resort S request (Search.rankOptions engine request) (aggregate rs)) := by
  refine ⟨_, Search_returns S engine request rs hready hn hoff hmax hfit, ?_⟩
  simp [hc, ho]

/-- C1 (code defect): with `OutputOffset = 1`, `MaxOutputs = 9223372036854775807` (both
`≥ 0`) and one candidate, `start + MaxOutputs` wraps to a negative `end`, and the slice
expression of `Search` panics instead of returning the empty page. -/
theorem Search_pagination_overflow :
    Search insertionSorter (Sample.engine 1 false [])
        (Sample.request false false (some (Sample.rank 1 9223372036854775807 false)))
        [some { docs := [Sample.doc 1 1], numDocs := 1 }] = .error .panicked := by
  decide

/-- C2 (as stated, fails): with `Orderless` set, `MaxOutputs = 1` and four candidates
from two shards, all four are returned; and with `CountDocsOnly` set and
`MaxOutputs = -1` the empty `Docs` is longer than `MaxOutputs`. -/
theorem Search_orderless_exceeds_MaxOutputs :
    (∃ response,
      Search insertionSorter (Sample.engine 2 false [])
        (Sample.request false true (some (Sample.rank 0 1 false)))
        (Sample.outputs.map some) = .ok response ∧
      (Search.rankOptions (Sample.engine 2 false [])
        (Sample.request false true (some (Sample.rank 0 1 false)))).MaxOutputs = 1 ∧
      response.Docs.length = 4) ∧
    (∃ response,
      Search insertionSorter (Sample.engine 2 false [])
        (Sample.request true false (some (Sample.rank 0 (-1) false)))
        (Sample.outputs.map some) = .ok response ∧
      ¬ ((response.Docs.length : Int) ≤ -1)) := by
  refine ⟨⟨⟨[[97], [98]], aggregate Sample.outputs, 4, false⟩, ?_, ?_, ?_⟩,
    ⟨⟨[[97], [98]], [], 4, false⟩, ?_, ?_⟩⟩ <;> decide

/-- C2 (amended): for a request that is not `Orderless`, or is `CountDocsOnly`, with a
positive effective `MaxOutputs`: every response `Search` returns, for whatever the
shards deliver, has at most `MaxOutputs` documents; and `Search` does return when all
shard outputs arrive, the offset is not negative and offset plus limit stay in range. -/
theorem Search_output_limit (S : SortImpl) (engine : Engine) (request : SearchRequest)
    (hflags : request.Orderless = false ∨ request.CountDocsOnly = true)
    (hpos : 0 < (Search.rankOptions engine request).MaxOutputs) :
    (∀ recv response, Search S engine request recv = .ok response →
      (response.Docs.length : Int) ≤ (Search.rankOptions engine request).MaxOutputs) ∧
    (∀ rs : List rankerReturnRequest, engine.Ready →
      (rs.length : Int) = engine.initOptions.NumShards →
      0 ≤ (Search.rankOptions engine request).OutputOffset →
      MinInt (Search.rankOptions engine request).OutputOffset (aggregate rs).length +
        (Search.rankOptions engine request).MaxOutputs < 2 ^ 63 →
      ∃ response, Search S engine request (rs.map some) = .ok response) := by
  constructor
  · intro recv response h
    obtain ⟨L, numDocs, isTimeout, -, hout⟩ := Search_ok_elim h
    obtain ⟨-, -, -, h1, -, h3⟩ := output_ok_elim hout
    cases hc : request.CountDocsOnly
    · have ho : request.Orderless = false := by
        rcases hflags with ho | hc'
        · exact ho
        · rw [hc] at hc'; exact absurd hc' (by simp)
      have hs := h3 hc ho
      have hb := slice_bounds hs
      have hl := (slice_sublist hs).2
      rw [if_neg (by omega)] at hs hb hl
      have hle : MinInt (addInt (MinInt (Search.rankOptions engine request).OutputOffset
            (Search.resort S request (Search.rankOptions engine request) L).length)
            (Search.rankOptions engine request).MaxOutputs)
            (Search.resort S request (Search.rankOptions engine request) L).length ≤
          MinInt (Search.rankOptions engine request).OutputOffset
            (Search.resort S request (Search.rankOptions engine request) L).length +
            (Search.rankOptions engine request).MaxOutputs := by
        generalize MinInt (Search.rankOptions engine request).OutputOffset
            (Search.resort S request (Search.rankOptions engine request) L).length = start at hb ⊢
        generalize (Search.resort S request (Search.rankOptions engine request) L).length = n at hb ⊢
        unfold MinInt addInt wrapInt at hb ⊢
        split_ifs at hb ⊢ <;> omega
      omega
    · rw [h1 hc]
      simp only [List.length_nil, Nat.cast_zero]
      omega
  · intro rs hready hn hoff hfit
    exact ⟨_, Search_returns S engine request rs hready hn hoff (by omega) hfit⟩

/-- C2 (amended), at the engine tests' offset 1 and limit 3 with four candidates. -/
theorem Search_output_limit_witness :
    ∃ response,
      Search insertionSorter (Sample.engine 2 false [])
        (Sample.request false false (some (Sample.rank 1 3 true)))
        (Sample.outputs.map some) = .ok response ∧
      (response.Docs.length : Int) ≤ 3 :=
  have h := Search_output_limit insertionSorter (Sample.engine 2 false [])
    (Sample.request false false (some (Sample.rank 1 3 true))) (Or.inl rfl) (by decide)
  let ⟨response, hr⟩ := h.2 Sample.outputs (by decide) (by decide) (by decide) (by decide)
  ⟨response, hr, h.1 _ _ hr⟩

theorem collect_mem (c timed : Bool) : ∀ (n : Nat) (recv : List (Option rankerReturnRequest))
    (docs : List ScoredDocument) (m : Int) (t₀ : Bool) (L : List ScoredDocument) (k : Int)
    (t : Bool), Search.collect c timed n recv docs m t₀ = .ok (L, k, t) →
    ∀ d ∈ L, d ∈ docs ∨ ∃ out, some out ∈ recv ∧ d ∈ out.docs
  | 0, _, _, _, _, _, _, _, h, d, hd => by
    simp only [Search.collect, Except.ok.injEq, Prod.mk.injEq] at h
    rw [← h.1] at hd
    exact Or.inl hd
  | n + 1, some r :: rest, docs, m, t₀, L, k, t, h, d, hd => by
    simp only [Search.collect] at h
    rcases collect_mem c timed n rest _ _ _ L k t h d hd with h1 | ⟨out, ho, hdo⟩
    · split_ifs at h1
      · rcases List.mem_append.mp h1 with h2 | h2
        · exact Or.inl h2
        · exact Or.inr ⟨r, List.mem_cons_self _ _, h2⟩
      · exact Or.inl h1
    · exact Or.inr ⟨out, List.mem_cons_of_mem _ ho, hdo⟩
  | n + 1, none :: rest, docs, m, t₀, L, k, t, h, d, hd => by
    simp only [Search.collect] at h
    split_ifs at h
    rcases collect_mem c timed n rest _ _ _ L k t h d hd with h1 | ⟨out, ho, hdo⟩
    · exact Or.inl h1
    · exact Or.inr ⟨out, List.mem_cons_of_mem _ ho, hdo⟩
  | n + 1, [], docs, m, t₀, L, k, t, h, d, hd => by
    simp only [Search.collect] at h
    split_ifs at h
    exact collect_mem c timed n [] _ _ _ L k t h d hd

theorem noNaNOutputs_map (rs : List rankerReturnRequest)
    (h : ∀ out ∈ rs, ∀ d ∈ out.docs, NoNaN d.Scores) : NoNaNOutputs (rs.map some) := by
  intro out hout d hd
  rcases List.mem_map.mp hout with ⟨out', hmem, he⟩
  cases he
  exact h out hmem d hd

theorem resort_sorted (S : SortImpl) (hS : S.Local) (request : SearchRequest)
    (ro : RankOptions) (l : List ScoredDocument) (hl : ∀ d ∈ l, NoNaN d.Scores)
    (hc : request.CountDocsOnly = false) (ho : request.Orderless = false) :
    (Search.resort S request ro l).Pairwise
      (fun a b => if ro.ReverseOrder then Less a b = false else Less b a = false) := by
  unfold Search.resort
  simp only [hc, ho, Bool.not_false, Bool.and_self, if_true]
  cases hr : ro.ReverseOrder
  · simpa [IsSortedBy] using hS Less l (strictWeakOn_Less l hl)
  · simpa [IsSortedBy, reverseLess] using
      hS (reverseLess Less) l (strictWeakOn_reverseLess (strictWeakOn_Less l hl))

theorem resort_mem (S : SortImpl) (request : SearchRequest) (ro : RankOptions)
    (l : List ScoredDocument) (d : ScoredDocument)
    (h : d ∈ Search.resort S request ro l) : d ∈ l := by
  unfold Search.resort at h
  split_ifs at h
  · exact (S.perm _ l).subset h
  · exact (S.perm _ l).subset h
  · exact h

/-- The documents of a response come sorted for the comparator, and none has a NaN score,
when no candidate has one. -/
theorem Search_docs_sorted {S : SortImpl} (hS : S.Local) {engine : Engine}
    {request : SearchRequest} {recv : List (Option rankerReturnRequest)}
    {response : SearchResponse} (hc : request.CountDocsOnly = false)
    (ho : request.Orderless = false) (hn : NoNaNOutputs recv)
    (h : Search S engine request recv = .ok response) :
    response.Docs.Pairwise
      (fun a b => (NoNaN a.Scores ∧ NoNaN b.Scores) ∧
        if (Search.rankOptions engine request).ReverseOrder then Less a b = false
        else Less b a = false) := by
  obtain ⟨L, numDocs, isTimeout, hcol, hout⟩ := Search_ok_elim h
  have hL : ∀ d ∈ L, NoNaN d.Scores := by
    intro d hd
    rcases collect_mem _ _ _ _ _ _ _ _ _ _ hcol d hd with h1 | ⟨out, ho', hdo⟩
    · exact absurd h1 (List.not_mem_nil _)
    · exact hn out ho' d hdo
  have hsub := output_sublist hout
  have hs := (resort_sorted S hS request _ L hL hc ho).sublist hsub
  refine List.Pairwise.imp_of_mem ?_ hs
  intro a b ha hb hab
  exact ⟨⟨hL a (resort_mem S request _ L a (hsub.subset ha)),
    hL b (resort_mem S request _ L b (hsub.subset hb))⟩, hab⟩

theorem sort_reverse_eq (S : SortImpl) (hS : S.Local) (l : List ScoredDocument)
    (hl : ∀ d ∈ l, NoNaN d.Scores) (hd : l.Pairwise (fun a b => a.Scores ≠ b.Scores)) :
    S.sort (reverseLess Less) l = (S.sort Less l).reverse := by
  have hsymm : Symmetric (fun a b : ScoredDocument => a.Scores ≠ b.Scores) :=
    fun a b h => Ne.symm h
  have h1 : (S.sort (reverseLess Less) l).Pairwise (fun a b => Less a b = false) := by
    simpa [IsSortedBy, reverseLess] using
      hS (reverseLess Less) l (strictWeakOn_reverseLess (strictWeakOn_Less l hl))
  have h2 : (S.sort Less l).reverse.Pairwise (fun a b => Less a b = false) := by
    rw [List.pairwise_reverse]
    simpa [IsSortedBy] using hS Less l (strictWeakOn_Less l hl)
  have hp1 : (S.sort (reverseLess Less) l).Perm l := S.perm _ l
  have hp2 : (S.sort Less l).reverse.Perm l := (List.reverse_perm _).trans (S.perm _ l)
  have hd1 : (S.sort (reverseLess Less) l).Pairwise (fun a b => a.Scores ≠ b.Scores) :=
    (hp1.pairwise_iff (fun {a b} h => hsymm h)).mpr hd
  have hd2 : (S.sort Less l).reverse.Pairwise (fun a b => a.Scores ≠ b.Scores) :=
    (hp2.pairwise_iff (fun {a b} h => hsymm h)).mpr hd
  have : IsAntisymm ScoredDocument
      (fun a b => (Less a b = false ∧ a.Scores ≠ b.Scores) ∧
        (NoNaN a.Scores ∧ NoNaN b.Scores)) :=
    ⟨fun a b hab hba => by
      exfalso
      exact hab.1.2 (moreScores_total _ _ hab.2.1 hab.2.2
        ((Less_eq_false_iff a b hab.2.1 hab.2.2).mp hab.1.1).1
        ((Less_eq_false_iff b a hab.2.2 hab.2.1).mp hba.1.1).1)⟩
  have hm1 : (S.sort (reverseLess Less) l).Pairwise
      (fun a b => NoNaN a.Scores ∧ NoNaN b.Scores) :=
    List.Pairwise.imp_of_mem (fun {a b} ha hb _ => ⟨hl a (hp1.subset ha), hl b (hp1.subset hb)⟩)
      h1
  have hm2 : (S.sort Less l).reverse.Pairwise
      (fun a b => NoNaN a.Scores ∧ NoNaN b.Scores) :=
    List.Pairwise.imp_of_mem (fun {a b} ha hb _ => ⟨hl a (hp2.subset ha), hl b (hp2.subset hb)⟩)
      h2
  exact List.eq_of_perm_of_sorted (hp1.trans hp2.symm) ((h1.and hd1).and hm1)
    ((h2.and hd2).and hm2)

/-- C3 (as stated, fails): with a NaN score among the candidates the re-sort leaves the
slice as it arrived, scores 1, NaN, 2, so the document with score 2 comes after the
document with score 1; the insertion sort gives the same with a comparator that has no
docId tie-break. -/
theorem Search_order_lost_with_NaN :
    Search goSorter (Sample.engine 1 false []) (Sample.request false false none)
        (Sample.nanOutput.map some) =
      .ok { Tokens := [[97], [98]]
            Docs := [Sample.doc 1 1, Sample.nanDoc 2, Sample.doc 3 2]
            NumDocs := 3
            Timeout := false } ∧
    moreScores (Sample.doc 3 2).Scores (Sample.doc 1 1).Scores = true ∧
    goInsertionSort scoresLess (aggregate Sample.nanOutput) =
      [Sample.doc 1 1, Sample.nanDoc 2, Sample.doc 3 2] := by
  decide

/-- C3 (amended): for a request that is neither `Orderless` nor `CountDocsOnly` and shard
outputs without NaN scores, the documents of every response are in lexicographically
descending order of their score vectors (no document's vector is greater than that of a
document before it), ascending when `ReverseOrder` is set; for candidates without NaN
and with pairwise distinct score vectors the re-sort with `ReverseOrder` is exactly the
reverse of the re-sort without; and `Search` returns a response when all shard outputs
arrive and offset and limit are in range. -/
theorem Search_global_order (S : SortImpl) (hS : S.Local) (engine : Engine)
    (request : SearchRequest) (hc : request.CountDocsOnly = false)
    (ho : request.Orderless = false) :
    (∀ recv response, NoNaNOutputs recv → Search S engine request recv = .ok response →
      response.Docs.Pairwise (fun a b =>
        if (Search.rankOptions engine request).ReverseOrder then
          moreScores a.Scores b.Scores = false
        else moreScores b.Scores a.Scores = false)) ∧
    (∀ (ro : RankOptions) (l : List ScoredDocument), (∀ d ∈ l, NoNaN d.Scores) →
      l.Pairwise (fun a b => a.Scores ≠ b.Scores) →
      Search.resort S request { ro with ReverseOrder := true } l =
        (Search.resort S request { ro with ReverseOrder := false } l).reverse) ∧
    (∀ rs : List rankerReturnRequest, engine.Ready →
      (rs.length : Int) = engine.initOptions.NumShards →
      0 ≤ (Search.rankOptions engine request).OutputOffset →
      0 ≤ (Search.rankOptions engine request).MaxOutputs →
      MinInt (Search.rankOptions engine request).OutputOffset (aggregate rs).length +
        (Search.rankOptions engine request).MaxOutputs < 2 ^ 63 →
      ∃ response, Search S engine request (rs.map some) = .ok response) := by
  refine ⟨fun recv response hn h => ?_, fun ro l hl hd => ?_,
    fun rs hready hn hoff hmax hfit => ?_⟩
  · refine (Search_docs_sorted hS hc ho hn h).imp ?_
    rintro a b ⟨⟨ha, hb⟩, hab⟩
    split_ifs at hab ⊢
    · exact ((Less_eq_false_iff a b ha hb).mp hab).1
    · exact ((Less_eq_false_iff b a hb ha).mp hab).1
  · simp only [Search.resort, hc, ho, Bool.not_false, Bool.and_self, if_true,
      Bool.false_eq_true, if_false]
    exact sort_reverse_eq S hS l hl hd
  · exact ⟨_, Search_returns S engine request rs hready hn hoff hmax hfit⟩

/-- C3 (amended), at the sample outputs with `ReverseOrder`: the response is in ascending
order of scores. -/
theorem Search_global_order_witness :
    ∃ response,
      Search goSorter (Sample.engine 2 false [])
        (Sample.request false false (some (Sample.rank 0 0 true)))
        (Sample.outputs.map some) = .ok response ∧
      response.Docs.Pairwise (fun a b => moreScores a.Scores b.Scores = false) :=
  have h := Search_global_order goSorter goSorter_local (Sample.engine 2 false [])
    (Sample.request false false (some (Sample.rank 0 0 true))) rfl rfl
  let ⟨response, hr⟩ :=
    h.2.2 Sample.outputs (by decide) (by decide) (by decide) (by decide) (by decide)
  ⟨response, hr, h.1 _ _ (noNaNOutputs_map _ (by decide)) hr⟩

/-- C4 (as stated, fails): without `ReverseOrder`, a NaN score between two candidates of
score 2 leaves docId 4 before docId 3; with `ReverseOrder`, the two candidates of equal
score that arrive as docId 3, docId 2 come out in that order. The insertion sort gives
both results also with a comparator that has no docId tie-break. -/
theorem Search_ties_not_ascending :
    Search goSorter (Sample.engine 1 false []) (Sample.request false false none)
        (Sample.nanTieOutput.map some) =
      .ok { Tokens := [[97], [98]]
            Docs := [Sample.doc 4 2, Sample.doc 1 1, Sample.nanDoc 2, Sample.doc 3 2]
            NumDocs := 4
            Timeout := false } ∧
    goInsertionSort scoresLess (aggregate Sample.nanTieOutput) =
      [Sample.doc 4 2, Sample.doc 1 1, Sample.nanDoc 2, Sample.doc 3 2] ∧
    Search goSorter (Sample.engine 2 false [])
        (Sample.request false false (some (Sample.rank 0 0 true)))
        (Sample.tieOutputs.map some) =
      .ok { Tokens := [[97], [98]]
            Docs := [Sample.doc 4 1, Sample.doc 3 2, Sample.doc 2 2, Sample.doc 1 3]
            NumDocs := 4
            Timeout := false } ∧
    goInsertionSort (reverseLess scoresLess) (aggregate Sample.tieOutputs) =
      [Sample.doc 4 1, Sample.doc 3 2, Sample.doc 2 2, Sample.doc 1 3] := by
  decide

/-- C4 (amended): for a request that is neither `Orderless` nor `CountDocsOnly` and shard
outputs without NaN scores, two documents of a response with equal score vectors are in
ascending docId order when `ReverseOrder` is false and in descending docId order when it
is true (`sort.Reverse` reverses the tie-break with the rest of the comparator); and
`Search` returns a response when all shard outputs arrive and offset and limit are in
range. -/
theorem Search_tie_break (S : SortImpl) (hS : S.Local) (engine : Engine)
    (request : SearchRequest) (hc : request.CountDocsOnly = false)
    (ho : request.Orderless = false) :
    (∀ recv response, NoNaNOutputs recv → Search S engine request recv = .ok response →
      response.Docs.Pairwise (fun a b => a.Scores = b.Scores →
        if (Search.rankOptions engine request).ReverseOrder then b.DocId ≤ a.DocId
        else a.DocId ≤ b.DocId)) ∧
    (∀ rs : List rankerReturnRequest, engine.Ready →
      (rs.length : Int) = engine.initOptions.NumShards →
      0 ≤ (Search.rankOptions engine request).OutputOffset →
      0 ≤ (Search.rankOptions engine request).MaxOutputs →
      MinInt (Search.rankOptions engine request).OutputOffset (aggregate rs).length +
        (Search.rankOptions engine request).MaxOutputs < 2 ^ 63 →
      ∃ response, Search S engine request (rs.map some) = .ok response) := by
  refine ⟨fun recv response hn h => ?_, fun rs hready hn hoff hmax hfit => ?_⟩
  · refine (Search_docs_sorted hS hc ho hn h).imp ?_
    rintro a b ⟨⟨ha, hb⟩, hab⟩ he
    split_ifs at hab ⊢
    · exact ((Less_eq_false_iff a b ha hb).mp hab).2 he
    · exact ((Less_eq_false_iff b a hb ha).mp hab).2 he.symm
  · exact ⟨_, Search_returns S engine request rs hready hn hoff hmax hfit⟩

/-- C4 (amended), at the sample outputs without `ReverseOrder`: equal scores come in
ascending docId order. -/
theorem Search_tie_break_witness :
    ∃ response,
      Search goSorter (Sample.engine 2 false [])
        (Sample.request false false none) (Sample.outputs.map some) = .ok response ∧
      response.Docs.Pairwise (fun a b => a.Scores = b.Scores → a.DocId ≤ b.DocId) :=
  have h := Search_tie_break goSorter goSorter_local (Sample.engine 2 false [])
    (Sample.request false false none) rfl rfl
  let ⟨response, hr⟩ :=
    h.2 Sample.outputs (by decide) (by decide) (by decide) (by decide) (by decide)
  ⟨response, hr, h.1 _ _ (noNaNOutputs_map _ (by decide)) hr⟩

/-- C5: for a `CountDocsOnly` request without timeout and the outputs of all N shards,
`Search` returns the response with the query tokens, no document, `NumDocs` the (`int`)
sum of the shards' `numDocs` (the exact sum whenever that is an `int`) and
`Timeout = false`; any other request with the same text and tokens gets the same
response, whatever its rank options and `Orderless`; and whatever the shards deliver, a
response has no document and `Timeout = false`. -/
theorem Search_countDocsOnly (S : SortImpl) (engine : Engine) (request : SearchRequest)
    (rs : List rankerReturnRequest) (hready : engine.Ready)
    (hn : (rs.length : Int) = engine.initOptions.NumShards)
    (hc : request.CountDocsOnly = true) (ht : request.Timeout ≤ 0) :
    Search S engine request (rs.map some) = .ok
      { Tokens := Search.tokens engine request
        Docs := []
        NumDocs := wrapInt (totalNumDocs rs)
        Timeout := false } ∧
    (IsInt (totalNumDocs rs) → wrapInt (totalNumDocs rs) = totalNumDocs rs) ∧
    (∀ (S' : SortImpl) (request' : SearchRequest),
      request'.CountDocsOnly = true → request'.Timeout ≤ 0 →
      request'.Text = request.Text → request'.Tokens = request.Tokens →
      Search S' engine request' (rs.map some) = Search S engine request (rs.map some)) ∧
    (∀ recv response, Search S engine request recv = .ok response →
      response.Docs = [] ∧ response.Timeout = false ∧
        response.Tokens = Search.tokens engine request) := by
  have key : ∀ (S' : SortImpl) (request' : SearchRequest), request'.CountDocsOnly = true →
      Search S' engine request' (rs.map some) = .ok
        { Tokens := Search.tokens engine request'
          Docs := []
          NumDocs := wrapInt (totalNumDocs rs)
          Timeout := false } := by
    intro S' request' hc'
    rw [Search_all_arrived S' engine request' rs hready hn]
    simp [Search.output, hc']
  refine ⟨key S request hc, wrapInt_of_isInt, ?_, ?_⟩
  · intro S' request' hc' _ htext htokens
    rw [key S' request' hc', key S request hc]
    simp [Search.tokens, htext, htokens]
  · intro recv response h
    obtain ⟨L, numDocs, isTimeout, hcol, hout⟩ := Search_ok_elim h
    obtain ⟨htok, -, htime, hdocs, -, -⟩ := output_ok_elim hout
    have hf : decide (0 < request.Timeout) = false := by
      simp only [decide_eq_false_iff_not]; omega
    rw [hf] at hcol
    rw [collect_untimed_flag _ _ _ _ _ _ _ _ hcol] at htime
    exact ⟨hdocs hc, htime, htok⟩

/-- C5, at the sample outputs of two shards with two documents each: `NumDocs = 4`,
no `Docs`. -/
theorem Search_countDocsOnly_witness :
    Search insertionSorter (Sample.engine 2 false [])
        (Sample.request true false (some (Sample.rank 0 1 true)))
        (Sample.outputs.map some) = .ok
      { Tokens := [[97], [98]], Docs := [], NumDocs := 4, Timeout := false } :=
  (Search_countDocsOnly insertionSorter (Sample.engine 2 false [])
    (Sample.request true false (some (Sample.rank 0 1 true))) Sample.outputs
    (by decide) (by decide) rfl (by decide)).1

theorem slots_set (found : List GoString) (k : GoString) (h : found.length < 10) :
    (suggestion.slots found).set found.length k = suggestion.slots (found ++ [k]) := by
  unfold suggestion.slots
  have h1 : 10 - found.length = (10 - (found ++ [k]).length) + 1 := by
    simp only [List.length_append, List.length_singleton]; omega
  rw [h1, List.replicate_succ, List.set_append_right _ _ (le_refl _)]
  simp

theorem slots_length (found : List GoString) (h : found.length ≤ 10) :
    (suggestion.slots found).length = 10 := by
  unfold suggestion.slots
  simp only [List.length_append, List.length_replicate]
  omega

theorem ForEach_visit (key : GoString) : ∀ (store : Storage) (found : List GoString),
    found.length ≤ 10 →
    ForEach store (suggestion.visit key) (suggestion.slots found, found.length) =
      if (found ++ (store.map Prod.fst).filter (fun k => key.isPrefixOf k)).length ≤ 10 then
        .ok (suggestion.slots (found ++ (store.map Prod.fst).filter (fun k => key.isPrefixOf k)),
          (found ++ (store.map Prod.fst).filter (fun k => key.isPrefixOf k)).length)
      else .error .panicked
  | [], found, h => by simp [ForEach, h]
  | (k, v) :: rest, found, h => by
    simp only [ForEach, suggestion.visit, List.map_cons, List.filter_cons]
    cases hk : key.isPrefixOf k
    · simp only [Bool.false_eq_true, if_false]
      exact ForEach_visit key rest found h
    · simp only [if_true, slots_length found h]
      by_cases h10 : found.length < 10
      · rw [if_pos h10]
        simp only [slots_set found k h10]
        have h' : (found ++ [k]).length ≤ 10 := by
          simp only [List.length_append, List.length_singleton]; omega
        have ih := ForEach_visit key rest (found ++ [k]) h'
        simp only [List.length_append, List.length_singleton, List.append_assoc,
          List.singleton_append] at ih ⊢
        exact ih
      · rw [if_neg h10, if_neg]
        simp only [List.length_append, List.length_cons]
        omega

theorem scan_eq (key : GoString) : ∀ (dbs : List (Option Storage × Option Storage))
    (found : List GoString), IndexStoresOpen dbs → found.length ≤ 10 →
    suggestion.scan key dbs (suggestion.slots found, found.length) =
      if (found ++ (indexKeys dbs).filter (fun k => key.isPrefixOf k)).length ≤ 10 then
        .ok (suggestion.slots (found ++ (indexKeys dbs).filter (fun k => key.isPrefixOf k)),
          (found ++ (indexKeys dbs).filter (fun k => key.isPrefixOf k)).length)
      else .error .panicked
  | [], found, _, h => by simp [suggestion.scan, indexKeys, h]
  | (info, index) :: rest, found, hopen, h => by
    obtain ⟨hidx, hrest⟩ := hopen
    cases index with
    | none => exact absurd rfl hidx
    | some store =>
      have hdb : getDB "index" = .ok 1 := by decide
      have hat : dbAt (info, some store) 1 = .ok (some store) := rfl
      simp only [suggestion.scan, hdb, hat, indexKeys, List.filter_append]
      rw [ForEach_visit key store found h]
      by_cases h1 : (found ++ (store.map Prod.fst).filter (fun k => key.isPrefixOf k)).length ≤ 10
      · rw [if_pos h1]
        simp only
        rw [scan_eq key rest _ hrest h1]
        simp only [List.append_assoc]
      · rw [if_neg h1, if_neg]
        simp only [List.length_append] at h1 ⊢
        omega

/-- What `suggestion` computes on an initialised engine with open stores: with at most
ten matching keys, the matching keys followed by empty strings up to ten entries; with
more, a panic. -/
theorem suggestion_eq (engine : Engine) (key : GoString) (hinit : engine.initialized = true)
    (hopen : IndexStoresOpen engine.dbs) :
    suggestion engine key =
      if (Spec.matches engine key).length ≤ 10 then
        .ok (Spec.matches engine key ++
          List.replicate (10 - (Spec.matches engine key).length) [])
      else .error .panicked := by
  unfold suggestion Spec.matches
  rw [if_neg (by simp [hinit])]
  cases hp : engine.initOptions.UsePersistentStorage
  · simp
  · have h := scan_eq key engine.dbs [] hopen (by simp)
    simp only [suggestion.slots, List.nil_append, List.length_nil, Nat.sub_zero] at h
    simp only [if_true]
    rw [h]
    split_ifs with h1
    · have hl := slots_length _ h1
      unfold suggestion.slots at hl
      simp only [ge_iff_le, hl, le_refl, if_true]
      rw [List.take_of_length_le (by omega)]
    · rfl

theorem toUint32_of_lt {n : Int} (h0 : 0 ≤ n) (h : n < 2 ^ 32) : toUint32 n = n.toNat := by
  unfold toUint32
  congr 1
  omega

/-- The shard `IndexDocument` computes for a number of shards between 1 and `2^32 - 1`:
the hash of the bytes `%d` followed by the decimal digits of `docId`, modulo the number
of shards; it lies in `[0, NumShards)`. -/
theorem IndexDocument_shard_eq (Murmur3 : GoString → Nat) (numShards : Int) (docId : Nat)
    (h1 : 1 ≤ numShards) (h2 : numShards < 2 ^ 32) :
    IndexDocument.shard Murmur3 numShards docId =
      .ok ((Murmur3 (37 :: 100 :: decimal docId) % 2 ^ 32 % numShards.toNat : Nat) : Int) ∧
    0 ≤ ((Murmur3 (37 :: 100 :: decimal docId) % 2 ^ 32 % numShards.toNat : Nat) : Int) ∧
    ((Murmur3 (37 :: 100 :: decimal docId) % 2 ^ 32 % numShards.toNat : Nat) : Int) <
      numShards := by
  have hu := toUint32_of_lt (by omega : 0 ≤ numShards) h2
  have hpos : 0 < numShards.toNat := by omega
  refine ⟨?_, by omega, ?_⟩
  · unfold IndexDocument.shard
    simp only [hu, fmtSprint, List.cons_append, List.nil_append]
    rw [if_neg (by omega)]
  · have := Nat.mod_lt (Murmur3 (37 :: 100 :: decimal docId) % 2 ^ 32) hpos
    omega

/-- The hash agrees with the published values of MurmurHash3: the empty key with seeds 0
and 1, and the keys `test` and `Hello, world!` with seed 0. -/
theorem murmur3_published_values :
    murmur3 0 [] = 0 ∧ murmur3 1 [] = 0x514e28b7 ∧
    murmur3 0 [116, 101, 115, 116] = 0xba6bd213 ∧
    murmur3 0 [72, 101, 108, 108, 111, 44, 32, 119, 111, 114, 108, 100, 33] = 0xc0363e43 := by
  decide

/-- C6 (code defect): for docId 0 and two shards `IndexDocument` hashes the three bytes
`%d0`, not the decimal string `0`, and puts shard 0 in the segmenter request, where
MurmurHash3 of the decimal string modulo 2 is 1; so with seed 1 and so with seed 0. -/
theorem IndexDocument_shard_hashes_format_verb :
    fmtSprint 0 = [37, 100, 48] ∧ fmtSprintf 0 = [48] ∧
    (IndexDocument (murmur3 1) (Sample.engine 2 false []) 0).2 =
      .ok { docId := 0, shard := 0 } ∧
    murmur3 1 (fmtSprintf 0) % 2 ^ 32 % 2 = 1 ∧
    (IndexDocument (murmur3 0) (Sample.engine 2 false []) 0).2 =
      .ok { docId := 0, shard := 0 } ∧
    murmur3 0 (fmtSprintf 0) % 2 ^ 32 % 2 = 1 := by
  decide

/-- C7 (as stated, fails): with `NumShards = 2^32 + 1`, `uint32(NumShards)` is 1, so
`IndexDocument` assigns shard 0, while `RemoveDocument` reduces the hash modulo
`2^32 + 1` and deletes in shard 192. -/
theorem home_shard_disagrees_past_uint32 :
    IndexDocument.shard Sample.hash (2 ^ 32 + 1) 7 = .ok 0 ∧
    RemoveDocument.shard Sample.hash (2 ^ 32 + 1) 7 = .ok 192 := by
  decide

/-- C7 (amended): for every docId and every number of shards from 1 to `2^32 - 1`, the
shard in which `RemoveDocument` deletes the persisted record is the shard `IndexDocument`
assigns to the docId, and that shard lies in `[0, NumShards)`. -/
theorem home_shard_agreement (Murmur3 : GoString → Nat) (numShards : Int) (docId : Nat)
    (h1 : 1 ≤ numShards) (h2 : numShards < 2 ^ 32) :
    RemoveDocument.shard Murmur3 numShards docId =
      IndexDocument.shard Murmur3 numShards docId ∧
    ∃ shard, IndexDocument.shard Murmur3 numShards docId = .ok shard ∧
      0 ≤ shard ∧ shard < numShards := by
  obtain ⟨hidx, hlo, hhi⟩ := IndexDocument_shard_eq Murmur3 numShards docId h1 h2
  refine ⟨?_, _, hidx, hlo, hhi⟩
  rw [hidx]
  unfold RemoveDocument.shard
  rw [if_neg (by omega)]
  congr 1
  simp only [fmtSprint, List.cons_append, List.nil_append]
  rw [Int.tmod_eq_emod (by omega) (by omega)]
  have hn : ((numShards.toNat : Nat) : Int) = numShards := Int.toNat_of_nonneg (by omega)
  push_cast
  rw [hn]

/-- C7 (amended), for docId 7 and three shards with the byte-sum hash. -/
theorem home_shard_agreement_witness :
    RemoveDocument.shard Sample.hash 3 7 = IndexDocument.shard Sample.hash 3 7 :=
  (home_shard_agreement Sample.hash 3 7 (by decide) (by decide)).1

/-- C8 (code defect): with one matching key `a1` among the two keys of the index store,
`suggestion` returns that key followed by nine empty strings, which are no keys of the
store and do not start with the requested bytes. -/
theorem suggestion_pads_with_empty_strings :
    suggestion (Sample.engine 1 true [(some [], some (Sample.store 2))]) [97, 49] =
      .ok [[97, 49], [], [], [], [], [], [], [], [], []] := by
  decide

/-- C9 (code defect): with eleven keys of the index store starting with the requested
byte, `suggestion` panics on the write to `res[10]`. -/
theorem suggestion_eleventh_match_panics :
    (Spec.matches (Sample.engine 1 true [(some [], some (Sample.store 11))]) [97]).length = 11 ∧
    suggestion (Sample.engine 1 true [(some [], some (Sample.store 11))]) [97] =
      .error .panicked := by
  decide

theorem andThen_keeps {P : Engine → Prop} {r : Engine × Option Failure}
    {next : Engine → Engine × Option Failure} (hr : P r.1)
    (hnext : ∀ e, P e → P (next e).1) : P (andThen r next).1 := by
  unfold andThen
  split
  · exact hr
  · exact hnext _ hr

theorem andThen_none {r : Engine × Option Failure}
    {next : Engine → Engine × Option Failure} (hr : r.2 = none)
    (hnext : (next r.1).2 = none) : (andThen r next).2 = none := by
  unfold andThen
  rw [hr]
  exact hnext

theorem shards_flag (env : InitEnv) (options : EngineInitOptions) :
    ∀ (n : Nat) (shard : Int) (engine : Engine), engine.initialized = true →
      (Init.shards env options n shard engine).1.initialized = true
  | 0, _, _, h => h
  | n + 1, shard, engine, h => by
    simp only [Init.shards]
    split
    · exact h
    · split
      · exact h
      · exact shards_flag env options n _ _ h

theorem shards_none (env : InitEnv) (options : EngineInitOptions)
    (hi : ∀ shard, env.indexerInit options shard = none)
    (hr : ∀ shard, env.rankerInit shard = none) :
    ∀ (n : Nat) (shard : Int) (engine : Engine),
      (Init.shards env options n shard engine).2 = none
  | 0, _, _ => rfl
  | n + 1, shard, engine => by
    simp only [Init.shards, hi, hr]
    exact shards_none env options hi hr n _ _

theorem openStores_flag (env : InitEnv) :
    ∀ (n shard : Nat) (engine : Engine), engine.initialized = true →
      (Init.openStores env n shard engine).1.initialized = true
  | 0, _, _, h => h
  | n + 1, shard, engine, h => by
    simp only [Init.openStores]
    split
    · exact h
    · split
      · exact h
      · exact openStores_flag env n _ _ h

theorem openStores_none (env : InitEnv) (ho : ∀ path, env.openStorage path ≠ none) :
    ∀ (n shard : Nat) (engine : Engine), (Init.openStores env n shard engine).2 = none
  | 0, _, _ => rfl
  | n + 1, shard, engine => by
    simp only [Init.openStores]
    split
    · rename_i h; exact absurd h (ho _)
    · split
      · rename_i h; exact absurd h (ho _)
      · exact openStores_none env ho n _ _

theorem channels_flag (options : EngineInitOptions) (engine : Engine)
    (h : engine.initialized = true) : (Init.channels options engine).1.initialized = true := by
  unfold Init.channels
  dsimp only
  split_ifs <;> exact h

theorem storageChannels_flag (engine : Engine) (h : engine.initialized = true) :
    (Init.storageChannels engine).1.initialized = true := by
  unfold Init.storageChannels
  split_ifs <;> exact h

theorem storage_flag (env : InitEnv) (engine : Engine) (h : engine.initialized = true) :
    (Init.storage env engine).1.initialized = true := by
  unfold Init.storage
  dsimp only
  split_ifs
  · exact h
  · exact h
  · refine andThen_keeps (P := fun e => e.initialized = true)
      (openStores_flag env _ _ _ h) ?_
    intro e he
    split
    · exact he
    · exact openStores_flag env _ _ _ he
  · exact h

/-- Past line 71 the flag stays set, whatever happens later in `Init`. -/
theorem Init_sets_flag (env : InitEnv) (engine : Engine) (options o : EngineInitOptions)
    (hfresh : engine.initialized = false) (ho : env.optionsInit options = .ok o) :
    (Init env engine options).1.initialized = true := by
  unfold Init
  rw [if_neg (by simp [hfresh]), ho]
  simp only
  split
  · rfl
  · split
    · rfl
    · refine andThen_keeps (P := fun e => e.initialized = true)
        (shards_flag env o _ _ _ rfl) ?_
      intro e he
      refine andThen_keeps (P := fun e => e.initialized = true) (channels_flag o e he) ?_
      intro e he
      refine andThen_keeps (P := fun e => e.initialized = true) (storageChannels_flag e he) ?_
      intro e he
      exact storage_flag env e he

theorem Init_returned_flag (env : InitEnv) (engine : Engine) (options : EngineInitOptions)
    (h : (Init env engine options).2 = none) : (Init env engine options).1.initialized = true := by
  cases hinit : engine.initialized
  · cases ho : env.optionsInit options with
    | ok o => exact Init_sets_flag env engine options o hinit ho
    | error f =>
      unfold Init at h
      rw [if_neg (by simp [hinit]), ho] at h
      exact absurd h (by simp)
  · unfold Init at h
    rw [if_pos hinit] at h
    exact absurd h (by simp)


theorem shards_options (env : InitEnv) (options : EngineInitOptions) :
    ∀ (n : Nat) (shard : Int) (engine : Engine),
      (Init.shards env options n shard engine).1.initOptions = engine.initOptions
  | 0, _, _ => rfl
  | n + 1, shard, engine => by
    simp only [Init.shards]
    split
    · rfl
    · split
      · rfl
      · exact shards_options env options n _ _

theorem openStores_options (env : InitEnv) :
    ∀ (n shard : Nat) (engine : Engine),
      (Init.openStores env n shard engine).1.initOptions = engine.initOptions
  | 0, _, _ => rfl
  | n + 1, shard, engine => by
    simp only [Init.openStores]
    split
    · rfl
    · split
      · rfl
      · exact openStores_options env n _ _

theorem channels_options (options : EngineInitOptions) (engine : Engine) :
    (Init.channels options engine).1.initOptions = engine.initOptions := by
  unfold Init.channels
  dsimp only
  split_ifs <;> rfl

theorem channels_none (options : EngineInitOptions) (engine : Engine)
    (h1 : 0 ≤ options.NumSegmenterThreads) (h2 : 0 ≤ options.NumShards)
    (h3 : 0 ≤ options.IndexerBufferLength) (h4 : 0 ≤ options.RankerBufferLength) :
    (Init.channels options engine).2 = none := by
  unfold Init.channels
  dsimp only
  rw [if_neg (by omega), if_neg (by omega), if_neg (by omega), if_neg (by omega)]

theorem storageChannels_options (engine : Engine) :
    (Init.storageChannels engine).1.initOptions = engine.initOptions := by
  unfold Init.storageChannels
  split_ifs <;> rfl

theorem storageChannels_none (engine : Engine) (h : 0 ≤ engine.initOptions.NumShards) :
    (Init.storageChannels engine).2 = none := by
  unfold Init.storageChannels
  split_ifs
  · omega
  · rfl
  · rfl

theorem storage_none (env : InitEnv) (engine : Engine)
    (h : 0 ≤ engine.initOptions.NumShards)
    (hp : engine.initOptions.UsePersistentStorage = true →
      env.mkdirAll engine.initOptions.PersistentStorageFolder = true ∧
        (∀ path, env.openStorage path ≠ none) ∧ ∀ dbs, env.recovery dbs ≠ none) :
    (Init.storage env engine).2 = none := by
  unfold Init.storage
  dsimp only
  split_ifs with h1 h2 h3
  · obtain ⟨hm, -, -⟩ := hp h1
    rw [hm] at h2
    exact absurd h2 (by simp)
  · omega
  · obtain ⟨-, ho, hr⟩ := hp h1
    refine andThen_none (openStores_none env ho _ _ _) ?_
    split
    · rename_i hrec; exact absurd hrec (hr _)
    · exact openStores_none env ho _ _ _
  · rfl

/-- In an environment where nothing fails, `Init` on an engine not yet initialised
returns. -/
theorem Init_returns (env : InitEnv) (engine : Engine) (options : EngineInitOptions)
    (hfresh : engine.initialized = false) (hs : Init.Succeeds env options) :
    (Init env engine options).2 = none := by
  obtain ⟨o, ho, ⟨seg, hseg⟩, ⟨st, hst⟩, hi, hr, h1, h2, h3, h4, hp⟩ := hs
  unfold Init
  rw [if_neg (by simp [hfresh]), ho]
  simp only [hseg, hst]
  refine andThen_none (shards_none env o hi hr _ _ _) ?_
  refine andThen_none (channels_none o _ h2 h1 h3 h4) ?_
  have e1 : ∀ e : Engine, e.initOptions = o →
      (Init.channels o (Init.shards env o o.NumShards.toNat 0 e).1).1.initOptions = o := by
    intro e he
    rw [channels_options, shards_options, he]
  refine andThen_none (storageChannels_none _ ?_) ?_
  · rw [e1 _ rfl]; exact h1
  · apply storage_none
    · rw [storageChannels_options, e1 _ rfl]; exact h1
    · rw [storageChannels_options, e1 _ rfl]; exact hp

theorem Init_of_initialized (env : InitEnv) (engine : Engine) (options : EngineInitOptions)
    (h : engine.initialized = true) : Init env engine options = (engine, some .fatal) := by
  unfold Init
  rw [if_pos h]

/-- C10: `Init` on an engine whose `initialized` flag is set ends with `log.Fatal` and
leaves the engine as it was; `Init` on a fresh engine sets the flag as soon as
`options.Init()` has returned, and keeps it set; so when an `Init` call has returned,
the next `Init` on the same engine is fatal and changes nothing; and `Init` on a fresh
engine does return when nothing in its environment fails. -/
theorem Init_single_shot (env env' : InitEnv) (engine : Engine)
    (options options' : EngineInitOptions) :
    (engine.initialized = true → Init env engine options = (engine, some .fatal)) ∧
    (engine.initialized = false → ∀ o, env.optionsInit options = .ok o →
      (Init env engine options).1.initialized = true) ∧
    ((Init env engine options).2 = none →
      Init env' (Init env engine options).1 options' =
        ((Init env engine options).1, some .fatal)) ∧
    (engine.initialized = false → Init.Succeeds env options →
      (Init env engine options).2 = none ∧
        (Init env engine options).1.initialized = true) := by
  refine ⟨Init_of_initialized env engine options,
    fun h o ho => Init_sets_flag env engine options o h ho,
    fun h => Init_of_initialized env' _ options' (Init_returned_flag env engine options h),
    fun h hs => ?_⟩
  · have hret := Init_returns env engine options h hs
    exact ⟨hret, Init_returned_flag env engine options hret⟩

/-- C10, on the zero-value engine with persistent storage and two shards: the first
`Init` returns with the flag set, a second `Init` is fatal. -/
theorem Init_single_shot_witness :
    (Init Sample.env Sample.fresh (Sample.options 2 true)).2 = none ∧
    (Init Sample.env Sample.fresh (Sample.options 2 true)).1.initialized = true ∧
    (Init Sample.env (Init Sample.env Sample.fresh (Sample.options 2 true)).1
      (Sample.options 1 false)).2 = some .fatal :=
  have h := Init_single_shot Sample.env Sample.env Sample.fresh (Sample.options 2 true)
    (Sample.options 1 false)
  have hs : Init.Succeeds Sample.env (Sample.options 2 true) :=
    ⟨_, rfl, ⟨_, rfl⟩, ⟨_, rfl⟩, fun _ => rfl, fun _ => rfl, by decide, by decide, by decide,
      by decide, fun _ => ⟨rfl, fun _ => by simp [Sample.env], fun _ => by simp [Sample.env]⟩⟩
  ⟨(h.2.2.2 rfl hs).1, (h.2.2.2 rfl hs).2, by rw [h.2.2.1 (h.2.2.2 rfl hs).1]⟩

theorem sendAll_replicate (n : Nat) (c : Int) :
    sendAll (List.replicate n (some c)) n = none := by
  unfold sendAll
  rw [List.findSome?_eq_none_iff]
  intro shard hs
  have hlt : shard < n := List.mem_range.mp hs
  unfold sendOne
  simp [List.getElem?_replicate, hlt]

theorem shards_lookup (env : InitEnv) (options : EngineInitOptions) :
    ∀ (n : Nat) (shard : Int) (engine : Engine),
      (Init.shards env options n shard engine).1.indexerLookupChannels =
        engine.indexerLookupChannels
  | 0, _, _ => rfl
  | n + 1, shard, engine => by
    simp only [Init.shards]
    split
    · rfl
    · split
      · rfl
      · exact shards_lookup env options n _ _

theorem openStores_lookup (env : InitEnv) :
    ∀ (n shard : Nat) (engine : Engine),
      (Init.openStores env n shard engine).1.indexerLookupChannels =
        engine.indexerLookupChannels
  | 0, _, _ => rfl
  | n + 1, shard, engine => by
    simp only [Init.openStores]
    split
    · rfl
    · split
      · rfl
      · exact openStores_lookup env n _ _

theorem channels_lookup (options : EngineInitOptions) (engine : Engine)
    (h : (Init.channels options engine).2 = none) :
    (Init.channels options engine).1.indexerLookupChannels =
      List.replicate options.NumShards.toNat (some options.IndexerBufferLength) := by
  unfold Init.channels at h ⊢
  dsimp only at h ⊢
  split_ifs at h ⊢
  rfl

theorem storageChannels_lookup (engine : Engine) :
    (Init.storageChannels engine).1.indexerLookupChannels = engine.indexerLookupChannels := by
  unfold Init.storageChannels
  split_ifs <;> rfl

theorem storage_frame (env : InitEnv) (engine : Engine) :
    (Init.storage env engine).1.indexerLookupChannels = engine.indexerLookupChannels ∧
      (Init.storage env engine).1.initOptions = engine.initOptions := by
  unfold Init.storage
  dsimp only
  split_ifs
  · exact ⟨rfl, rfl⟩
  · exact ⟨rfl, rfl⟩
  · refine andThen_keeps
      (P := fun e => e.indexerLookupChannels = engine.indexerLookupChannels ∧
        e.initOptions = engine.initOptions)
      ⟨by rw [openStores_lookup], by rw [openStores_options]⟩ ?_
    intro e he
    split
    · exact he
    · exact ⟨by rw [openStores_lookup]; exact he.1, by rw [openStores_options]; exact he.2⟩
  · exact ⟨rfl, rfl⟩

theorem andThen_eq {r : Engine × Option Failure} {next : Engine → Engine × Option Failure}
    (hr : r.2 = none) : andThen r next = next r.1 := by
  unfold andThen
  rw [hr]

/-- An `Init` that meets no failure leaves the engine ready for `Search`. -/
theorem Init_ready (env : InitEnv) (engine : Engine) (options : EngineInitOptions)
    (hfresh : engine.initialized = false) (hs : Init.Succeeds env options) :
    (Init env engine options).1.Ready := by
  have hflag := Init_returned_flag env engine options (Init_returns env engine options hfresh hs)
  obtain ⟨o, ho, ⟨seg, hseg⟩, ⟨st, hst⟩, hi, hr, h1, h2, h3, h4, hp⟩ := hs
  refine ⟨hflag, ?_⟩
  unfold Init
  rw [if_neg (by simp [hfresh]), ho]
  simp only [hseg, hst]
  rw [andThen_eq (shards_none env o hi hr _ _ _), andThen_eq (channels_none o _ h2 h1 h3 h4)]
  have hopt : ∀ e : Engine, e.initOptions = o →
      (Init.storageChannels
        (Init.channels o (Init.shards env o o.NumShards.toNat 0 e).1).1).1.initOptions = o := by
    intro e he
    rw [storageChannels_options, channels_options, shards_options, he]
  rw [andThen_eq (storageChannels_none _ (by
    rw [channels_options, shards_options]; exact h1))]
  rw [(storage_frame env _).1, (storage_frame env _).2, hopt _ rfl, storageChannels_lookup,
    channels_lookup o _ (channels_none o _ h2 h1 h3 h4)]
  exact ⟨h1, sendAll_replicate _ _⟩

/-- The four operations that test the flag: on an engine not initialised each ends with
`log.Fatal` before anything else; `IndexDocument` leaves the engine, its counters
included, as it was. -/
theorem use_before_init_fatal (S : SortImpl) (Murmur3 : GoString → Nat) (engine : Engine)
    (h : engine.initialized = false) :
    (∀ docId, IndexDocument Murmur3 engine docId = (engine, .error .fatal)) ∧
    (∀ docId, RemoveDocument Murmur3 engine docId = .error .fatal) ∧
    (∀ request recv, Search S engine request recv = .error .fatal) ∧
    (∀ key, suggestion engine key = .error .fatal) := by
  refine ⟨fun docId => ?_, fun docId => ?_, fun request recv => ?_, fun key => ?_⟩
  · unfold IndexDocument
    rw [if_pos (by simp [h])]
  · unfold RemoveDocument
    rw [if_pos (by simp [h])]
  · unfold Search
    rw [if_pos (by simp [h])]
  · unfold suggestion
    rw [if_pos (by simp [h])]

/-- C11 (code defect): on the zero-value engine, which is not initialised, `FlushIndex`
returns at its first iteration and `Close` returns as well, neither being fatal, while
`IndexDocument`, `RemoveDocument`, `Search` and `suggestion` are fatal there. -/
theorem FlushIndex_and_Close_before_Init :
    Sample.fresh.initialized = false ∧
    FlushIndex (fun _ => Sample.fresh) 1 0 = some 0 ∧
    Close (fun _ => Sample.fresh) 1 = some (.ok []) ∧
    IndexDocument Sample.hash Sample.fresh 7 = (Sample.fresh, .error .fatal) ∧
    RemoveDocument Sample.hash Sample.fresh 7 = .error .fatal ∧
    Search insertionSorter Sample.fresh (Sample.request false false none) [] = .error .fatal ∧
    suggestion Sample.fresh [97] = .error .fatal := by
  refine ⟨rfl, by decide, by decide, ?_, by decide, by decide, by decide⟩
  exact (use_before_init_fatal insertionSorter Sample.hash Sample.fresh rfl).1 7

theorem done_iff (engine : Engine) :
    FlushIndex.done engine = true ↔
      engine.numIndexingRequests = engine.numDocumentsIndexed ∧
        (engine.initOptions.UsePersistentStorage = true →
          engine.numIndexingRequests = engine.numDocumentsStored) := by
  unfold FlushIndex.done
  cases engine.initOptions.UsePersistentStorage <;> simp

theorem FlushIndex_some (observed : Nat → Engine) :
    ∀ (fuel start k : Nat), FlushIndex observed fuel start = some k →
      start ≤ k ∧ k < start + fuel ∧ FlushIndex.done (observed k) = true ∧
        ∀ j, start ≤ j → j < k → FlushIndex.done (observed j) = false
  | 0, _, _, h => by simp [FlushIndex] at h
  | fuel + 1, start, k, h => by
    simp only [FlushIndex] at h
    split_ifs at h with hd
    · simp only [Option.some.injEq] at h
      subst h
      exact ⟨le_refl _, by omega, hd, fun j h1 h2 => by omega⟩
    · obtain ⟨h1, h2, h3, h4⟩ := FlushIndex_some observed fuel (start + 1) k h
      refine ⟨by omega, by omega, h3, fun j hj hjk => ?_⟩
      by_cases hjs : j = start
      · subst hjs; simpa using hd
      · exact h4 j (by omega) hjk

theorem FlushIndex_first (observed : Nat → Engine) :
    ∀ (fuel start k : Nat), start ≤ k → k < start + fuel →
      FlushIndex.done (observed k) = true →
      (∀ j, start ≤ j → j < k → FlushIndex.done (observed j) = false) →
      FlushIndex observed fuel start = some k
  | 0, _, _, h1, h2, _, _ => by omega
  | fuel + 1, start, k, h1, h2, hd, hfirst => by
    simp only [FlushIndex]
    by_cases hk : k = start
    · subst hk
      rw [if_pos hd]
    · rw [if_neg (by simp [hfirst start (le_refl _) (by omega)])]
      exact FlushIndex_first observed fuel (start + 1) k (by omega) (by omega) hd
        (fun j hj hjk => hfirst j (by omega) hjk)

/-- C12: `FlushIndex`, as a loop over the states it observes, returns only at a state
where `numIndexingRequests = numDocumentsIndexed` and, with persistent storage,
`numIndexingRequests = numDocumentsStored`; no earlier observed state satisfies both; and
when some observed state satisfies them, `FlushIndex` returns at the first such state
(once it is given that many iterations). Without persistent storage
`numDocumentsStored` plays no part. -/
theorem FlushIndex_barrier (observed : Nat → Engine) :
    (∀ fuel k, FlushIndex observed fuel 0 = some k →
      (observed k).numIndexingRequests = (observed k).numDocumentsIndexed ∧
      ((observed k).initOptions.UsePersistentStorage = true →
        (observed k).numIndexingRequests = (observed k).numDocumentsStored) ∧
      ∀ j, j < k → ¬ ((observed j).numIndexingRequests = (observed j).numDocumentsIndexed ∧
        ((observed j).initOptions.UsePersistentStorage = true →
          (observed j).numIndexingRequests = (observed j).numDocumentsStored))) ∧
    (∀ k, (observed k).numIndexingRequests = (observed k).numDocumentsIndexed →
      ((observed k).initOptions.UsePersistentStorage = true →
        (observed k).numIndexingRequests = (observed k).numDocumentsStored) →
      ∃ first, first ≤ k ∧ ∀ fuel, first < fuel → FlushIndex observed fuel 0 = some first) ∧
    (∀ k, (observed k).initOptions.UsePersistentStorage = false →
      (FlushIndex.done (observed k) = true ↔
        (observed k).numIndexingRequests = (observed k).numDocumentsIndexed)) := by
  refine ⟨fun fuel k h => ?_, fun k h1 h2 => ?_, fun k hp => ?_⟩
  · obtain ⟨-, -, hd, hfirst⟩ := FlushIndex_some observed fuel 0 k h
    have hk := (done_iff _).mp hd
    refine ⟨hk.1, hk.2, fun j hj hc => ?_⟩
    have := hfirst j (Nat.zero_le _) hj
    rw [(done_iff _).mpr hc] at this
    exact Bool.noConfusion this
  · have hex : ∃ n, FlushIndex.done (observed n) = true := ⟨k, (done_iff _).mpr ⟨h1, h2⟩⟩
    refine ⟨Nat.find hex, Nat.find_min' hex ((done_iff _).mpr ⟨h1, h2⟩), fun fuel hf => ?_⟩
    refine FlushIndex_first observed fuel 0 _ (Nat.zero_le _) (by omega) (Nat.find_spec hex) ?_
    intro j _ hj
    have := Nat.find_min hex hj
    simpa using this
  · rw [done_iff]
    simp [hp]

/-- C12, on five indexing requests with persistent storage: the flush returns at the
iteration numbered 7, the first at which both counters have caught up. -/
theorem FlushIndex_barrier_witness :
    FlushIndex (Sample.flushing true) 10 0 = some 7 ∧
    (Sample.flushing true 7).numIndexingRequests = (Sample.flushing true 7).numDocumentsStored :=
  have h := (FlushIndex_barrier (Sample.flushing true)).1 10 7 (by decide)
  ⟨by decide, h.2.1 rfl⟩

theorem Search_tokens_eq (engine : Engine) (request : SearchRequest) :
    Search.tokens engine request =
      if request.Text ≠ [] then Segment engine request.Text else request.Tokens := rfl

theorem mem_lookups {engine : Engine} {request : SearchRequest} {l : indexerLookupRequest}
    (h : l ∈ Search.lookups engine request) : l = Search.lookupRequest engine request := by
  unfold Search.lookups at h
  exact (List.mem_replicate.mp h).2

/-- C13: when `request.Text` is not empty, the tokens in every lookup request sent to the
shards and in every response are `Segment(Text)`, the segmenter's tokens of the text in
order without the stop tokens, whatever `request.Tokens` holds; when it is empty they are
`request.Tokens` as given; one lookup request goes to each shard, and `Search` returns a
response when all shard outputs arrive and offset and limit are in range. -/
theorem Search_query_tokens (S : SortImpl) (engine : Engine) (request : SearchRequest) :
    (request.Text ≠ [] →
      (∀ l ∈ Search.lookups engine request, l.tokens = Segment engine request.Text) ∧
      (∀ recv response, Search S engine request recv = .ok response →
        response.Tokens = Segment engine request.Text) ∧
      Segment engine request.Text =
        (engine.segmenter request.Text).filter (fun token => engine.stopTokens token = false) ∧
      ∀ tokens, Search S engine { request with Tokens := tokens } =
        Search S engine request) ∧
    (request.Text = [] →
      (∀ l ∈ Search.lookups engine request, l.tokens = request.Tokens) ∧
      (∀ recv response, Search S engine request recv = .ok response →
        response.Tokens = request.Tokens)) ∧
    (Search.lookups engine request).length = engine.initOptions.NumShards.toNat ∧
    (∀ rs : List rankerReturnRequest, engine.Ready →
      (rs.length : Int) = engine.initOptions.NumShards →
      0 ≤ (Search.rankOptions engine request).OutputOffset →
      0 ≤ (Search.rankOptions engine request).MaxOutputs →
      MinInt (Search.rankOptions engine request).OutputOffset (aggregate rs).length +
        (Search.rankOptions engine request).MaxOutputs < 2 ^ 63 →
      ∃ response, Search S engine request (rs.map some) = .ok response ∧
        response.Tokens = Search.tokens engine request) := by
  have hresp : ∀ recv response, Search S engine request recv = .ok response →
      response.Tokens = Search.tokens engine request := by
    intro recv response h
    obtain ⟨L, numDocs, isTimeout, -, hout⟩ := Search_ok_elim h
    exact (output_ok_elim hout).1
  refine ⟨fun ht => ⟨fun l hl => ?_, fun recv response h => ?_, ?_, fun tokens => ?_⟩,
    fun ht => ⟨fun l hl => ?_, fun recv response h => ?_⟩, ?_, ?_⟩
  · rw [mem_lookups hl]
    simp [Search.lookupRequest, Search_tokens_eq, ht]
  · rw [hresp recv response h, Search_tokens_eq, if_pos ht]
  · unfold Segment
    congr 1
    funext token
    cases engine.stopTokens token <;> rfl
  · funext recv
    have ht' : ({ request with Tokens := tokens } : SearchRequest).Text ≠ [] := ht
    unfold Search
    simp only [Search.tokens, Search.rankOptions, if_pos ht, if_pos ht']
    rfl
  · rw [mem_lookups hl]
    simp [Search.lookupRequest, Search_tokens_eq, ht]
  · rw [hresp recv response h, Search_tokens_eq, if_neg (by simp [ht])]
  · simp [Search.lookups]
  · intro rs hready hn hoff hmax hfit
    exact ⟨_, Search_returns S engine request rs hready hn hoff hmax hfit, rfl⟩

/-- C13, on the sample engine, whose segmenter cuts a text into its bytes and whose stop
token is the blank: the text `a b` gives the tokens `a`, `b`, not the request's own. -/
theorem Search_query_tokens_witness :
    ∃ response,
      Search insertionSorter (Sample.engine 2 false [])
        { Sample.request false false none with Text := [97, 32, 98], Tokens := [[99]] }
        (Sample.outputs.map some) = .ok response ∧
      response.Tokens = [[97], [98]] :=
  have h := (Search_query_tokens insertionSorter (Sample.engine 2 false [])
    { Sample.request false false none with Text := [97, 32, 98], Tokens := [[99]] }).1
      (by decide)
  have hr := (Search_query_tokens insertionSorter (Sample.engine 2 false [])
    { Sample.request false false none with Text := [97, 32, 98], Tokens := [[99]] }).2.2.2
      Sample.outputs (by decide) (by decide) (by decide) (by decide) (by decide)
  let ⟨response, hs, _⟩ := hr
  ⟨response, hs, by rw [h.2.1 _ _ hs]; decide⟩

theorem rankOptions_criteria_none (engine : Engine) (request : SearchRequest)
    (h : (Search.rankOptions engine request).ScoringCriteria = none) :
    engine.initOptions.DefaultRankOptions.ScoringCriteria = none := by
  unfold Search.rankOptions at h
  dsimp only at h
  split_ifs at h with hc
  · exact h
  · exact absurd h hc

theorem rankOptions_idem (engine : Engine) (request : SearchRequest) :
    Search.rankOptions engine
      { request with RankOptions := some (Search.rankOptions engine request) } =
      Search.rankOptions engine request := by
  have hsome : ∀ o : RankOptions,
      Search.rankOptions engine { request with RankOptions := some o } =
        if o.ScoringCriteria = none then
          { o with ScoringCriteria := engine.initOptions.DefaultRankOptions.ScoringCriteria }
        else o := fun _ => rfl
  rw [hsome]
  split_ifs with h
  · have hd := rankOptions_criteria_none engine request h
    rw [hd]
    generalize Search.rankOptions engine request = ro at h
    cases ro
    simp only at h
    subst h
    rfl
  · rfl

/-- C14: the rank options in effect are the engine's `DefaultRankOptions` when the
request has none; otherwise they are the request's, with its `OutputOffset`,
`MaxOutputs` and `ReverseOrder`, and with its `ScoringCriteria` unless that is nil, in
which case the default criterion takes its place. These options are the ones in every
lookup request sent to the shards, and the ones `Search` sorts and cuts with: the
response is that of the request that states them in full. -/
theorem Search_rank_options_merge (S : SortImpl) (engine : Engine) (request : SearchRequest) :
    (request.RankOptions = none →
      Search.rankOptions engine request = engine.initOptions.DefaultRankOptions) ∧
    (∀ o, request.RankOptions = some o →
      (Search.rankOptions engine request).OutputOffset = o.OutputOffset ∧
      (Search.rankOptions engine request).MaxOutputs = o.MaxOutputs ∧
      (Search.rankOptions engine request).ReverseOrder = o.ReverseOrder ∧
      (o.ScoringCriteria = none →
        (Search.rankOptions engine request).ScoringCriteria =
          engine.initOptions.DefaultRankOptions.ScoringCriteria) ∧
      (o.ScoringCriteria ≠ none →
        (Search.rankOptions engine request).ScoringCriteria = o.ScoringCriteria)) ∧
    (∀ l ∈ Search.lookups engine request, l.options = Search.rankOptions engine request) ∧
    (∀ recv, Search S engine request recv =
      Search S engine
        { request with RankOptions := some (Search.rankOptions engine request) } recv) ∧
    (∀ recv rankOutput numDocs isTimeout,
      Search.collect request.CountDocsOnly (decide (0 < request.Timeout))
        engine.initOptions.NumShards.toNat recv [] 0 false =
        .ok (rankOutput, numDocs, isTimeout) →
      engine.Ready →
      Search S engine request recv =
        Search.output request (Search.rankOptions engine request)
          (Search.tokens engine request)
          (Search.resort S request (Search.rankOptions engine request) rankOutput)
          numDocs isTimeout) := by
  refine ⟨fun h => ?_, fun o h => ?_, fun l hl => ?_, fun recv => ?_,
    fun recv rankOutput numDocs isTimeout hcol hready => ?_⟩
  · unfold Search.rankOptions
    rw [h]
    dsimp only
    split_ifs with hc
    · generalize engine.initOptions.DefaultRankOptions = d at hc ⊢
      cases d
      simp only at hc
      subst hc
      rfl
    · rfl
  · unfold Search.rankOptions
    rw [h]
    dsimp only
    split_ifs with hc
    · exact ⟨rfl, rfl, rfl, fun _ => rfl, fun hne => absurd hc hne⟩
    · exact ⟨rfl, rfl, rfl, fun hn => absurd hn hc, fun _ => rfl⟩
  · rw [mem_lookups hl]
    rfl
  · unfold Search
    rw [rankOptions_idem]
    rfl
  · obtain ⟨hinit, hshards, hchan⟩ := hready
    unfold Search
    rw [if_neg (by simp [hinit]), if_neg (by omega)]
    simp only [hchan, hcol]

/-- C14, on the sample engine: a request whose options have no criterion keeps its own
offset, limit and order and gets the default criterion. -/
theorem Search_rank_options_merge_witness :
    (Search.rankOptions (Sample.engine 2 false [])
      (Sample.request false false (some (Sample.rank 1 3 true)))).OutputOffset = 1 ∧
    (Search.rankOptions (Sample.engine 2 false [])
      (Sample.request false false (some (Sample.rank 1 3 true)))).MaxOutputs = 3 ∧
    (Search.rankOptions (Sample.engine 2 false [])
      (Sample.request false false (some (Sample.rank 1 3 true)))).ReverseOrder = true ∧
    (Search.rankOptions (Sample.engine 2 false [])
      (Sample.request false false (some (Sample.rank 1 3 true)))).ScoringCriteria = some 0 :=
  have h := (Search_rank_options_merge insertionSorter (Sample.engine 2 false [])
    (Sample.request false false (some (Sample.rank 1 3 true)))).2.1 (Sample.rank 1 3 true) rfl
  ⟨h.1, h.2.1, h.2.2.1, h.2.2.2.1 rfl⟩

end Wukong
